import Mathlib

/-!
Prefix manager (openr/prefix-manager/PrefixManager.cpp).

A shallow embedding of the prefix map of `PrefixManager` and of the helpers
that modify it, followed by the properties proved about them.

`prefixMap_` is a `std::unordered_map<thrift::IpPrefix, thrift::PrefixEntry>`.
It is embedded as an association list: `find` returns the first pair stored
under a key, `emplace` appends a pair, `erase` drops the pairs of a key, and a
range-for over the map walks the list.  Two maps hold the same contents when
every lookup agrees (`MapEq`).

The struct `MeshPath` of openr/fbmeshd/routing/Routing.h is embedded in the
namespace `Routing`, with the steady clock an explicit argument.
-/

namespace PrefixManager

/-! ## Thrift data types -/

/-- Modelled from the spec: `thrift::IpPrefix` is declared outside the given
sources; the spec describes the key as "IP/mask". -/
structure IpPrefix where
  prefixAddress : List Nat
  prefixLength : Nat
deriving DecidableEq, Repr

/-- Modelled from the spec: `thrift::PrefixType` is declared outside the given
sources; the spec calls it "an enumerated source-of-advertisement tag" and
names `LOOPBACK` and `BGP`; every other enumerator is carried by its number. -/
inductive PrefixType where
  | LOOPBACK
  | BGP
  | other (tag : Nat)
deriving DecidableEq, Repr

/-- Modelled from the spec: `thrift::PrefixEntry` is declared outside the
given sources; the spec lists `prefix`, `type`, an optional bool `ephemeral`
and an opaque payload. -/
structure PrefixEntry where
  prefix_ : IpPrefix
  type : PrefixType
  data : List Nat
  ephemeral : Option Bool
deriving DecidableEq, Repr

/-- The test `(not e.ephemeral.hasValue()) || (not e.ephemeral.value())`. -/
def PrefixEntry.persistent (e : PrefixEntry) : Bool :=
  match e.ephemeral with
  | none => true
  | some b => !b

/-! ## The map container -/

/-- The container `prefixMap_`. -/
abbrev PrefixMap := List (IpPrefix × PrefixEntry)

/-- The call `prefixMap_.find(k)`: the entry stored under `k`, `none` for `end()`. -/
def find : PrefixMap → IpPrefix → Option PrefixEntry
  | [], _ => none
  | (k', v) :: rest, k => if k' = k then some v else find rest k

/-- The call `prefixMap_.emplace(k, v)`: inserts unless the key is already there. -/
def emplace (m : PrefixMap) (k : IpPrefix) (v : PrefixEntry) : PrefixMap :=
  match find m k with
  | none => m ++ [(k, v)]
  | some _ => m

/-- The assignment `it->second = v` for the iterator `it = prefixMap_.find(k)`. -/
def assign : PrefixMap → IpPrefix → PrefixEntry → PrefixMap
  | [], _, _ => []
  | (k', v') :: rest, k, v =>
    if k' = k then (k', v) :: rest else (k', v') :: assign rest k v

/-- The call `prefixMap_.erase(k)`. -/
def erase : PrefixMap → IpPrefix → PrefixMap
  | [], _ => []
  | (k', v') :: rest, k => if k' = k then erase rest k else (k', v') :: erase rest k

/-- Equality of two maps as containers: every lookup agrees. -/
def MapEq (m₁ m₂ : PrefixMap) : Prop := ∀ k, find m₁ k = find m₂ k

/-- The keys of the map are pairwise distinct (guaranteed by the container). -/
def UniqueKeys (m : PrefixMap) : Prop := (m.map Prod.fst).Nodup

/-- Every entry is stored under its own `prefix` field. -/
def KeyConsistent (m : PrefixMap) : Prop := ∀ kv ∈ m, kv.2.prefix_ = kv.1

/-! ## Helpers for modifying the prefix database -/

/-- The function `PrefixManager::addOrUpdatePrefixes`, the loop body folded over the input
with the flag `updated` threaded through. -/
def addOrUpdatePrefixesLoop : List PrefixEntry → PrefixMap → Bool → Bool × PrefixMap
  | [], m, updated => (updated, m)
  | p :: rest, m, updated =>
    match find m p.prefix_ with
    | none => addOrUpdatePrefixesLoop rest (emplace m p.prefix_ p) true
    | some stored =>
      if stored ≠ p then addOrUpdatePrefixesLoop rest (assign m p.prefix_ p) true
      else addOrUpdatePrefixesLoop rest m updated

/-- The function `PrefixManager::addOrUpdatePrefixes`: the returned flag and the new map. -/
def addOrUpdatePrefixes (m : PrefixMap) (prefixes : List PrefixEntry) : Bool × PrefixMap :=
  addOrUpdatePrefixesLoop prefixes m false

/-- First loop of `PrefixManager::removePrefixes`: `false` as soon as an input
prefix is missing or stored with another type. -/
def removePrefixesVerify (m : PrefixMap) : List PrefixEntry → Bool
  | [] => true
  | p :: rest =>
    match find m p.prefix_ with
    | none => false
    | some stored => if stored.type ≠ p.type then false else removePrefixesVerify m rest

/-- Second loop of `PrefixManager::removePrefixes`. -/
def removePrefixesErase : List PrefixEntry → PrefixMap → PrefixMap
  | [], m => m
  | p :: rest, m => removePrefixesErase rest (erase m p.prefix_)

/-- The function `PrefixManager::removePrefixes`: the returned flag and the new map. -/
def removePrefixes (m : PrefixMap) (prefixes : List PrefixEntry) : Bool × PrefixMap :=
  if removePrefixesVerify m prefixes then (true, removePrefixesErase prefixes m)
  else (false, m)

/-- The call `newPrefixes.emplace(k)` on the `std::unordered_set<thrift::IpPrefix>`. -/
def setEmplace (s : List IpPrefix) (k : IpPrefix) : List IpPrefix :=
  if k ∈ s then s else s ++ [k]

/-- The set `newPrefixes` built by the first loop of `syncPrefixesByType`. -/
def collectNewPrefixes : List PrefixEntry → List IpPrefix → List IpPrefix
  | [], s => s
  | p :: rest, s => collectNewPrefixes rest (setEmplace s p.prefix_)

/-- The iterator loop of `syncPrefixesByType` that erases the old prefixes. -/
def syncEraseLoop (type : PrefixType) (newPrefixes : List IpPrefix) :
    PrefixMap → Bool → Bool × PrefixMap
  | [], updated => (updated, [])
  | (k, v) :: rest, updated =>
    if v.type = type ∧ newPrefixes.count k = 0 then
      syncEraseLoop type newPrefixes rest true
    else
      let r := syncEraseLoop type newPrefixes rest updated
      (r.1, (k, v) :: r.2)

/-- The function `PrefixManager::syncPrefixesByType`: the returned flag and the new map. -/
def syncPrefixesByType (m : PrefixMap) (type : PrefixType) (prefixes : List PrefixEntry) :
    Bool × PrefixMap :=
  let newPrefixes := collectNewPrefixes prefixes []
  let r := syncEraseLoop type newPrefixes m false
  let a := addOrUpdatePrefixes r.2 prefixes
  (r.1 || a.1, a.2)

/-- The iterator loop of `PrefixManager::removePrefixesByType`. -/
def removePrefixesByTypeLoop (type : PrefixType) : PrefixMap → Bool → Bool × PrefixMap
  | [], changed => (changed, [])
  | (k, v) :: rest, changed =>
    if v.type = type then removePrefixesByTypeLoop type rest true
    else
      let r := removePrefixesByTypeLoop type rest changed
      (r.1, (k, v) :: r.2)

/-- The function `PrefixManager::removePrefixesByType`: the returned flag and the new map. -/
def removePrefixesByType (m : PrefixMap) (type : PrefixType) : Bool × PrefixMap :=
  removePrefixesByTypeLoop type m false

/-- The function `PrefixManager::isAnyInputPrefixPersistent`. -/
def isAnyInputPrefixPersistent : List PrefixEntry → Bool
  | [] => false
  | p :: rest => if p.persistent then true else isAnyInputPrefixPersistent rest

/-- The function `PrefixManager::isAnyExistingPrefixPersistentByType`. -/
def isAnyExistingPrefixPersistentByType (type : PrefixType) : PrefixMap → Bool
  | [] => false
  | (_, v) :: rest =>
    if v.type ≠ type then isAnyExistingPrefixPersistentByType type rest
    else if v.persistent then true
    else isAnyExistingPrefixPersistentByType type rest

/-- The function `PrefixManager::isAnyExistingPrefixPersistent`. -/
def isAnyExistingPrefixPersistent (m : PrefixMap) : List PrefixEntry → Bool
  | [] => false
  | p :: rest =>
    match find m p.prefix_ with
    | some stored =>
      if stored.persistent then true else isAnyExistingPrefixPersistent m rest
    | none => isAnyExistingPrefixPersistent m rest

/-! ## The manager, its collaborators and request processing -/

/-- The key for the persisted configuration on disk, `kConfigKey`. -/
def kConfigKey : String := "prefix-manager-config"
def kErrorNoChanges : String := "No changes in prefixes to be advertised"
def kErrorNoPrefixToRemove : String := "No prefix to remove"
def kErrorNoPrefixesOfType : String := "No prefixes of type"
def kErrorUnknownCommand : String := "Unknown command"

/-- Modelled from the spec: `thrift::PerfEvent` is declared outside the given
sources; the spec describes "(node, timestamp) pairs" tagged with an event
name. -/
structure PerfEvent where
  nodeName : String
  eventDescr : String
  unixTs : Nat
deriving DecidableEq, Repr

/-- Modelled from the spec: `thrift::PrefixDatabase` is declared outside the
given sources; the code fills `thisNodeName`, `prefixEntries`, `perfEvents`. -/
structure PrefixDatabase where
  thisNodeName : String
  prefixEntries : List PrefixEntry
  perfEvents : Option (List PerfEvent)
deriving DecidableEq, Repr

/-- Modelled from the spec: `thrift::PrefixManagerCommand` is declared outside
the given sources; the six commands of the spec, and any other value. -/
inductive PrefixManagerCommand where
  | ADD_PREFIXES
  | WITHDRAW_PREFIXES
  | WITHDRAW_PREFIXES_BY_TYPE
  | SYNC_PREFIXES_BY_TYPE
  | GET_ALL_PREFIXES
  | GET_PREFIXES_BY_TYPE
  | unknown (value : Nat)
deriving DecidableEq, Repr

/-- Modelled from the spec: `thrift::PrefixManagerRequest` is declared outside
the given sources; the code reads `cmd`, `prefixes` and `type`. -/
structure PrefixManagerRequest where
  cmd : PrefixManagerCommand
  prefixes : List PrefixEntry
  type : PrefixType
deriving DecidableEq, Repr

/-- Modelled from the spec: `thrift::PrefixManagerResponse` is declared
outside the given sources; "`success: bool`, optional `message`, and for reads
a `prefixes` list". -/
structure PrefixManagerResponse where
  success : Bool
  message : String
  prefixes : List PrefixEntry
deriving DecidableEq, Repr

/-- A call `kvStoreClient_.persistKey(key, value, ttl)`; the value is kept as
the database that `writeThriftObjStr` serialises. -/
structure KvPersist where
  key : String
  value : PrefixDatabase
  ttl : Nat
deriving DecidableEq, Repr

/-- A call `configStoreClient_.storeThriftObj(key, value)`. -/
structure DiskStore where
  key : String
  value : PrefixDatabase
deriving DecidableEq, Repr

/-- The members of `PrefixManager` that request processing reads or writes,
with the two collaborators made explicit: `kvPublished` and `diskWritten` log
the calls made to the KV store client and to the config store client (newest
last), `disk` is what the config store holds under `kConfigKey`.
`kvStoreDbTtl` stands for `Constants::kKvStoreDbTtl`. -/
structure State where
  nodeId : String
  prefixDbMarker : String
  enablePerfMeasurement : Bool
  prefixHoldUntilTimePoint : Nat
  kvStoreDbTtl : Nat
  prefixMap : PrefixMap
  addPrefixesCount : Nat
  withdrawPrefixesCount : Nat
  kvPublished : List KvPersist
  diskWritten : List DiskStore
  disk : Option PrefixDatabase
deriving DecidableEq, Repr

/-- What a call observes of the outside: the reading of the steady clock in
`updateKvStore`, its reading in `persistPrefixDb`, the wall clock stamped by
`addPerfEvent`, and whether `storeThriftObj` succeeds. -/
structure Env where
  kvNow : Nat
  persistNow : Nat
  unixTs : Nat
  storeOk : Bool
deriving DecidableEq, Repr

/-- The loop of `persistPrefixDb` that collects the persistent entries. -/
def persistentEntriesLoop : PrefixMap → List PrefixEntry → List PrefixEntry
  | [], acc => acc
  | (_, v) :: rest, acc =>
    if v.persistent then persistentEntriesLoop rest (acc ++ [v])
    else persistentEntriesLoop rest acc

/-- The database that `persistPrefixDb` builds before storing it. -/
def persistentPrefixDb (s : State) (unixTs : Nat) : PrefixDatabase :=
  { thisNodeName := s.nodeId
    prefixEntries := persistentEntriesLoop s.prefixMap []
    perfEvents :=
      if s.enablePerfMeasurement then some [⟨s.nodeId, "PREFIX_DB_UPDATED", unixTs⟩]
      else none }

/-- The function `PrefixManager::persistPrefixDb`. -/
def persistPrefixDb (s : State) (env : Env) : State :=
  if env.persistNow < s.prefixHoldUntilTimePoint then s
  else
    let db := persistentPrefixDb s env.unixTs
    { s with
      diskWritten := s.diskWritten ++ [⟨kConfigKey, db⟩]
      disk := if env.storeOk then some db else s.disk }

/-- The loop of `updateKvStore` that collects every entry of the map. -/
def allEntriesLoop : PrefixMap → List PrefixEntry → List PrefixEntry
  | [], acc => acc
  | (_, v) :: rest, acc => allEntriesLoop rest (acc ++ [v])

/-- The function `PrefixManager::updateKvStore`. -/
def updateKvStore (s : State) (env : Env) : State :=
  if env.kvNow < s.prefixHoldUntilTimePoint then s
  else
    let prefixDb : PrefixDatabase :=
      { thisNodeName := s.nodeId
        prefixEntries := allEntriesLoop s.prefixMap []
        perfEvents := none }
    let prefixDbKey := s.prefixDbMarker ++ s.nodeId
    { s with kvPublished := s.kvPublished ++ [⟨prefixDbKey, prefixDb, s.kvStoreDbTtl⟩] }

/-- The loop of the `GET_PREFIXES_BY_TYPE` case. -/
def entriesByTypeLoop (type : PrefixType) : PrefixMap → List PrefixEntry → List PrefixEntry
  | [], acc => acc
  | (_, v) :: rest, acc =>
    if v.type = type then entriesByTypeLoop type rest (acc ++ [v])
    else entriesByTypeLoop type rest acc

/-- The `switch` of `processRequestMsg`: the state after the case, the
response, and the flag `persistentEntryChange`. -/
def processCommand (s : State) (env : Env) (req : PrefixManagerRequest) :
    State × PrefixManagerResponse × Bool :=
  let response : PrefixManagerResponse := ⟨false, "", []⟩
  match req.cmd with
  | .ADD_PREFIXES =>
    let s := { s with addPrefixesCount := s.addPrefixesCount + 1 }
    let persistentEntryChange := isAnyInputPrefixPersistent req.prefixes
    let r := addOrUpdatePrefixes s.prefixMap req.prefixes
    let s := { s with prefixMap := r.2 }
    if r.1 then (updateKvStore s env, { response with success := true }, persistentEntryChange)
    else (s, { response with success := false, message := kErrorNoChanges },
      persistentEntryChange)
  | .WITHDRAW_PREFIXES =>
    let persistentEntryChange := isAnyExistingPrefixPersistent s.prefixMap req.prefixes
    let r := removePrefixes s.prefixMap req.prefixes
    let s := { s with prefixMap := r.2 }
    if r.1 then
      let s := updateKvStore s env
      ({ s with withdrawPrefixesCount := s.withdrawPrefixesCount + 1 },
        { response with success := true }, persistentEntryChange)
    else (s, { response with success := false, message := kErrorNoPrefixToRemove },
      persistentEntryChange)
  | .WITHDRAW_PREFIXES_BY_TYPE =>
    let persistentEntryChange := isAnyExistingPrefixPersistentByType req.type s.prefixMap
    let r := removePrefixesByType s.prefixMap req.type
    let s := { s with prefixMap := r.2 }
    if r.1 then (updateKvStore s env, { response with success := true }, persistentEntryChange)
    else (s, { response with success := false, message := kErrorNoPrefixesOfType },
      persistentEntryChange)
  | .SYNC_PREFIXES_BY_TYPE =>
    let persistentEntryChange :=
      isAnyExistingPrefixPersistentByType req.type s.prefixMap ||
        isAnyInputPrefixPersistent req.prefixes
    let r := syncPrefixesByType s.prefixMap req.type req.prefixes
    let s := { s with prefixMap := r.2 }
    if r.1 then (updateKvStore s env, { response with success := true }, persistentEntryChange)
    else (s, { response with success := false, message := kErrorNoChanges },
      persistentEntryChange)
  | .GET_ALL_PREFIXES =>
    (s, { response with prefixes := allEntriesLoop s.prefixMap [], success := true }, false)
  | .GET_PREFIXES_BY_TYPE =>
    (s, { response with prefixes := entriesByTypeLoop req.type s.prefixMap [], success := true },
      false)
  | .unknown _ =>
    (s, { response with success := false, message := kErrorUnknownCommand }, false)

/-- The function `PrefixManager::processRequestMsg`; `request` is what `readThriftObj`
made of the message (`none` when it failed), the result is the new state and
the response (`none` for the `fbzmq::Error`). -/
def processRequestMsg (s : State) (env : Env) (request : Option PrefixManagerRequest) :
    State × Option PrefixManagerResponse :=
  match request with
  | none => (s, none)
  | some thriftReq =>
    let r := processCommand s env thriftReq
    let s := if r.2.1.success && r.2.2 then persistPrefixDb r.1 env else r.1
    (s, some r.2.1)

/-! ## Scenario data -/

def pfxA : IpPrefix := ⟨[10, 0, 0, 0], 8⟩
def pfxB : IpPrefix := ⟨[10, 1, 0, 0], 16⟩
def pfxC : IpPrefix := ⟨[192, 168, 0, 0], 16⟩
def pfxD : IpPrefix := ⟨[172, 16, 0, 0], 12⟩

def entryOf (p : IpPrefix) (t : PrefixType) (eph : Option Bool) : PrefixEntry :=
  ⟨p, t, [], eph⟩

/-- The manager of scenario S5 after its first step: the map holds
`10.0.0.0/8` as a persistent LOOPBACK entry, the hold deadline `5` is over. -/
def stateS5 : State :=
  { nodeId := "node1"
    prefixDbMarker := "prefix:"
    enablePerfMeasurement := false
    prefixHoldUntilTimePoint := 5
    kvStoreDbTtl := 300000
    prefixMap := [(pfxA, entryOf pfxA .LOOPBACK (some false))]
    addPrefixesCount := 1
    withdrawPrefixesCount := 0
    kvPublished :=
      [⟨"prefix:node1", ⟨"node1", [entryOf pfxA .LOOPBACK (some false)], none⟩, 300000⟩]
    diskWritten := [⟨kConfigKey, ⟨"node1", [entryOf pfxA .LOOPBACK (some false)], none⟩⟩]
    disk := some ⟨"node1", [entryOf pfxA .LOOPBACK (some false)], none⟩ }

/-- A call made at time `10`, after the hold deadline of `stateS5`, with the
config store accepting writes. -/
def envLate : Env := { kvNow := 10, persistNow := 10, unixTs := 1000, storeOk := true }

/-- A request with the given command, entries and type. -/
def mkRequest (cmd : PrefixManagerCommand) (prefixes : List PrefixEntry) (type : PrefixType) :
    PrefixManagerRequest :=
  ⟨cmd, prefixes, type⟩

/-- The four commands that modify the map. -/
def PrefixManagerCommand.mutating : PrefixManagerCommand → Bool
  | .ADD_PREFIXES => true
  | .WITHDRAW_PREFIXES => true
  | .WITHDRAW_PREFIXES_BY_TYPE => true
  | .SYNC_PREFIXES_BY_TYPE => true
  | _ => false

/-- Some input entry is persistent (`ephemeral` absent or false). -/
def anyInputPersistent (prefixes : List PrefixEntry) : Prop :=
  ∃ e ∈ prefixes, e.ephemeral = none ∨ e.ephemeral = some false

/-- Some existing map entry stored under the prefix of an input entry is
persistent. -/
def anyStoredUnderInputPersistent (m : PrefixMap) (prefixes : List PrefixEntry) : Prop :=
  ∃ e ∈ prefixes, ∃ v, find m e.prefix_ = some v ∧
    (v.ephemeral = none ∨ v.ephemeral = some false)

/-- Some existing map entry of the requested type is persistent. -/
def anyStoredOfTypePersistent (m : PrefixMap) (type : PrefixType) : Prop :=
  ∃ kv ∈ m, kv.2.type = type ∧ (kv.2.ephemeral = none ∨ kv.2.ephemeral = some false)

/-- The specification's "persistent-affecting": some input entry is
persistent, or some existing map entry matched by the request (stored under
the prefix of an input entry, or of the requested type) is persistent.  The
entries are the input of `ADD_PREFIXES`, `WITHDRAW_PREFIXES` and
`SYNC_PREFIXES_BY_TYPE`, the type is the input of the two by-type commands. -/
def specPersistentAffecting (m : PrefixMap) (req : PrefixManagerRequest) : Prop :=
  match req.cmd with
  | .ADD_PREFIXES =>
    anyInputPersistent req.prefixes ∨ anyStoredUnderInputPersistent m req.prefixes
  | .WITHDRAW_PREFIXES =>
    anyInputPersistent req.prefixes ∨ anyStoredUnderInputPersistent m req.prefixes
  | .WITHDRAW_PREFIXES_BY_TYPE => anyStoredOfTypePersistent m req.type
  | .SYNC_PREFIXES_BY_TYPE =>
    anyInputPersistent req.prefixes ∨ anyStoredUnderInputPersistent m req.prefixes ∨
      anyStoredOfTypePersistent m req.type
  | _ => False

/-- The call that led from `s` to `s'` made a write to the config store: the
log of `storeThriftObj` calls, which only ever grows, is not what it was. -/
def diskWriteMade (s s' : State) : Prop := s'.diskWritten ≠ s.diskWritten

/-- The entries held on disk are exactly the persistent entries of the map. -/
def DiskConsistent (s : State) : Prop :=
  ∃ db, s.disk = some db ∧
    ∀ e, e ∈ db.prefixEntries ↔
      ((∃ k, (k, e) ∈ s.prefixMap) ∧ (e.ephemeral = none ∨ e.ephemeral = some false))

/-- The manager holding `10.0.0.0/8` as an ephemeral LOOPBACK entry, with
nothing persistent on disk; the hold deadline `5` is over. -/
def stateEphemeral : State :=
  { stateS5 with
    prefixMap := [(pfxA, entryOf pfxA .LOOPBACK (some true))]
    kvPublished := []
    diskWritten := []
    disk := some ⟨"node1", [], none⟩ }

/-- The statement `prefixMap_[k] = v`: the subscript inserts the key when it is
missing, the assignment then stores `v` under it. -/
def subscriptAssign (m : PrefixMap) (k : IpPrefix) (v : PrefixEntry) : PrefixMap :=
  match find m k with
  | none => m ++ [(k, v)]
  | some _ => assign m k v

/-- The loop of the constructor that picks up the prefixes read from disk. -/
def loadEntries : List PrefixEntry → PrefixMap → PrefixMap
  | [], m => m
  | entry :: rest, m => loadEntries rest (subscriptAssign m entry.prefix_ entry)

/-- The constructor `PrefixManager::PrefixManager`: `startTime` is the reading
of the steady clock, `maybePrefixDb` what `loadThriftObj` read under
`kConfigKey` (`none` when that failed).  The result is the new manager and
the time at which the hold timeout is scheduled (`none` when `prefixHoldTime`
is zero). -/
def construct (nodeId prefixDbMarker : String) (enablePerfMeasurement : Bool)
    (prefixHoldTime kvStoreDbTtl startTime : Nat) (maybePrefixDb : Option PrefixDatabase) :
    State × Option Nat :=
  let prefixHoldUntilTimePoint := startTime + prefixHoldTime
  let prefixMap : PrefixMap :=
    match maybePrefixDb with
    | some db => loadEntries db.prefixEntries []
    | none => []
  ({ nodeId := nodeId
     prefixDbMarker := prefixDbMarker
     enablePerfMeasurement := enablePerfMeasurement
     prefixHoldUntilTimePoint := prefixHoldUntilTimePoint
     kvStoreDbTtl := kvStoreDbTtl
     prefixMap := prefixMap
     addPrefixesCount := 0
     withdrawPrefixesCount := 0
     kvPublished := []
     diskWritten := []
     disk := maybePrefixDb },
   if prefixHoldTime ≠ 0 then some prefixHoldUntilTimePoint else none)

/-- The callback scheduled by the constructor at the hold deadline. -/
def holdTimeout (s : State) (env : Env) : State :=
  updateKvStore (persistPrefixDb s env) env

/-- A sequence of requests processed one after the other, each with what it
observes of the outside. -/
def processRequests : State → List (Env × Option PrefixManagerRequest) → State
  | s, [] => s
  | s, (env, request) :: rest => processRequests (processRequestMsg s env request).1 rest

/-- The specification of sync-by-type, first half: the old map with every
entry of the given type removed. -/
def specRemoveType (type : PrefixType) (m : PrefixMap) : PrefixMap :=
  m.filter (fun kv => decide (kv.2.type ≠ type))

/-- The specification of sync-by-type, second half: one entry upserted under
its prefix, replacing whatever was stored there. -/
def specUpsert (m : PrefixMap) (e : PrefixEntry) : PrefixMap :=
  erase m e.prefix_ ++ [(e.prefix_, e)]

/-- The specification of sync-by-type: remove the type, then upsert the input
entries in order. -/
def specSyncByType (m : PrefixMap) (type : PrefixType) (prefixes : List PrefixEntry) :
    PrefixMap :=
  prefixes.foldl specUpsert (specRemoveType type m)

/-- The last entry of the input that carries the prefix `k`, if any. -/
def lastInputFor (prefixes : List PrefixEntry) (k : IpPrefix) : Option PrefixEntry :=
  (prefixes.filter (fun e => decide (e.prefix_ = k))).getLast?

end PrefixManager

/-! ## Mesh paths (openr/fbmeshd/routing/Routing.h) -/

namespace Routing

/-- The struct `Routing::MeshPath`.  A MAC address is kept as the number its 48
bits spell, `expTime` is a reading of the steady clock. -/
structure MeshPath where
  dst : Nat
  nextHop : Nat
  sn : Nat
  metric : Nat
  hopCount : Nat
  expTime : Nat
  isRoot : Bool
  isGate : Bool
deriving DecidableEq, Repr

/-- The constructor `MeshPath(folly::MacAddress _dst)` run when the steady
clock reads `now`: every other member takes its default initialiser, which
for `expTime` is `std::chrono::steady_clock::now()`. -/
def MeshPath.create (dst : Nat) (now : Nat) : MeshPath :=
  { dst := dst
    nextHop := 0
    sn := 0
    metric := 0
    hopCount := 0
    expTime := now
    isRoot := false
    isGate := false }

/-- The copy constructor `MeshPath(const MeshPath& other)`. -/
def MeshPath.copy (other : MeshPath) : MeshPath :=
  { dst := other.dst
    nextHop := other.nextHop
    sn := other.sn
    metric := other.metric
    hopCount := other.hopCount
    expTime := other.expTime
    isRoot := other.isRoot
    isGate := other.isGate }

/-- The member `MeshPath::expired()` called when the steady clock reads
`now`. -/
def MeshPath.expired (p : MeshPath) (now : Nat) : Bool :=
  decide (now > p.expTime)

end Routing

namespace PrefixManager

/-! ## Lookup lemmas for the container -/

theorem find_append_single (m : PrefixMap) (k k' : IpPrefix) (v : PrefixEntry) :
    find (m ++ [(k, v)]) k' =
      match find m k' with
      | some x => some x
      | none => if k = k' then some v else none := by
  induction m with
  | nil => simp [find]
  | cons hd tl ih =>
    obtain ⟨a, b⟩ := hd
    by_cases h : a = k'
    · simp [find, h]
    · simp [find, h, ih]

theorem find_emplace (m : PrefixMap) (k k' : IpPrefix) (v : PrefixEntry)
    (h : find m k = none) :
    find (emplace m k v) k' = if k = k' then some v else find m k' := by
  unfold emplace
  rw [h]
  simp only [find_append_single]
  by_cases hk : k = k'
  · subst hk
    simp [h]
  · simp only [hk, if_false]
    cases find m k' <;> rfl

theorem find_assign (m : PrefixMap) (k k' : IpPrefix) (v x : PrefixEntry)
    (h : find m k = some x) :
    find (assign m k v) k' = if k = k' then some v else find m k' := by
  induction m with
  | nil => simp [find] at h
  | cons hd tl ih =>
    obtain ⟨a, b⟩ := hd
    by_cases ha : a = k
    · subst ha
      by_cases hk : a = k'
      · simp [assign, find, hk]
      · simp [assign, find, hk]
    · have h' : find tl k = some x := by simpa [find, ha] using h
      by_cases hk : a = k'
      · subst hk
        have : ¬ k = a := fun e => ha e.symm
        simp [assign, find, ha, this]
      · simp [assign, find, ha, hk, ih h']

theorem find_erase (m : PrefixMap) (k k' : IpPrefix) :
    find (erase m k) k' = if k = k' then none else find m k' := by
  induction m with
  | nil => simp [erase, find]
  | cons hd tl ih =>
    obtain ⟨a, b⟩ := hd
    by_cases ha : a = k
    · subst ha
      by_cases hk : a = k'
      · subst hk
        simpa [erase, find] using ih
      · simp [erase, find, hk, ih]
    · by_cases hk : a = k'
      · subst hk
        have : ¬ k = a := fun e => ha e.symm
        simp [erase, find, ha, this]
      · simp [erase, find, ha, hk, ih]

theorem erase_eq_filter (m : PrefixMap) (k : IpPrefix) :
    erase m k = m.filter (fun kv => decide (kv.1 ≠ k)) := by
  induction m with
  | nil => rfl
  | cons hd tl ih =>
    obtain ⟨a, b⟩ := hd
    by_cases ha : a = k
    · simp [erase, ha, ih]
    · simp [erase, ha, ih]

theorem find_eq_none_iff (m : PrefixMap) (k : IpPrefix) :
    find m k = none ↔ ∀ kv ∈ m, kv.1 ≠ k := by
  induction m with
  | nil => simp [find]
  | cons hd tl ih =>
    obtain ⟨a, b⟩ := hd
    by_cases ha : a = k
    · simp [find, ha]
    · simp [find, ha, ih]

theorem mem_of_find_eq_some (m : PrefixMap) (k : IpPrefix) (v : PrefixEntry)
    (h : find m k = some v) : (k, v) ∈ m := by
  induction m with
  | nil => simp [find] at h
  | cons hd tl ih =>
    obtain ⟨a, b⟩ := hd
    by_cases ha : a = k
    · simp [find, ha] at h
      simp [ha, h]
    · simp [find, ha] at h
      exact List.mem_cons_of_mem _ (ih h)

/-! ## removePrefixes -/

theorem removePrefixesVerify_iff (m : PrefixMap) (es : List PrefixEntry) :
    removePrefixesVerify m es = true ↔
      ∀ e ∈ es, ∃ stored, find m e.prefix_ = some stored ∧ stored.type = e.type := by
  induction es with
  | nil => simp [removePrefixesVerify]
  | cons p rest ih =>
    unfold removePrefixesVerify
    cases hf : find m p.prefix_ with
    | none => simp [hf]
    | some stored =>
      by_cases ht : stored.type = p.type
      · simp [hf, ht, ih]
      · simp [hf, ht]

theorem removePrefixesErase_eq_filter (es : List PrefixEntry) (m : PrefixMap) :
    removePrefixesErase es m =
      m.filter (fun kv => decide (kv.1 ∉ es.map (fun e => e.prefix_))) := by
  induction es generalizing m with
  | nil => simp [removePrefixesErase]
  | cons p rest ih =>
    simp only [removePrefixesErase, ih, erase_eq_filter, List.filter_filter]
    apply List.filter_congr
    intro kv _
    by_cases h1 : kv.1 = p.prefix_
    · simp [h1]
    · simp [h1]

theorem find_removePrefixesErase (es : List PrefixEntry) (m : PrefixMap) (k : IpPrefix) :
    find (removePrefixesErase es m) k =
      if k ∈ es.map (fun e => e.prefix_) then none else find m k := by
  induction es generalizing m with
  | nil => simp [removePrefixesErase]
  | cons p rest ih =>
    simp only [removePrefixesErase, ih, find_erase, List.map_cons, List.mem_cons]
    by_cases h1 : k ∈ rest.map (fun e => e.prefix_)
    · simp [h1]
    · by_cases h2 : p.prefix_ = k
      · simp [h2]
      · have : ¬ k = p.prefix_ := fun e => h2 e.symm
        simp [h1, h2, this]

/-- C1: `removePrefixes` returns true iff every input entry's prefix is in the
map and stored with the input entry's type; when it returns true the new map
is the old one with exactly the input prefixes erased (every other pair kept
as it was), and when it returns false the map is the old map. -/
theorem removePrefixes_contract (m : PrefixMap) (es : List PrefixEntry) :
    ((removePrefixes m es).1 = true ↔
      ∀ e ∈ es, ∃ stored, find m e.prefix_ = some stored ∧ stored.type = e.type) ∧
    ((removePrefixes m es).1 = true →
      (∀ k, find (removePrefixes m es).2 k =
        if k ∈ es.map (fun e => e.prefix_) then none else find m k) ∧
      (removePrefixes m es).2 =
        m.filter (fun kv => decide (kv.1 ∉ es.map (fun e => e.prefix_)))) ∧
    ((removePrefixes m es).1 = false → (removePrefixes m es).2 = m) := by
  unfold removePrefixes
  by_cases hv : removePrefixesVerify m es = true
  · simp only [hv, if_true]
    refine ⟨?_, ?_, ?_⟩
    · simpa using (removePrefixesVerify_iff m es).1 hv
    · intro _
      exact ⟨fun k => find_removePrefixesErase es m k, removePrefixesErase_eq_filter es m⟩
    · intro h
      cases h
  · have hv' : ¬ ∀ e ∈ es, ∃ stored, find m e.prefix_ = some stored ∧ stored.type = e.type :=
      fun h => hv ((removePrefixesVerify_iff m es).2 h)
    simp only [hv]
    refine ⟨?_, ?_, ?_⟩
    · constructor
      · intro h
        cases h
      · intro h
        exact absurd h hv'
    · intro h
      cases h
    · intro _
      rfl

/-- C1 at the map of scenario S5: withdrawing the stored LOOPBACK prefix. -/
theorem removePrefixes_contract_witness :
    (removePrefixes [(pfxA, entryOf pfxA .LOOPBACK (some false))]
        [entryOf pfxA .LOOPBACK none]).1 = true ∧
    (removePrefixes [(pfxA, entryOf pfxA .LOOPBACK (some false))]
        [entryOf pfxA .LOOPBACK none]).2 =
      [(pfxA, entryOf pfxA .LOOPBACK (some false))].filter
        (fun kv => decide (kv.1 ∉ [entryOf pfxA .LOOPBACK none].map (fun e => e.prefix_))) :=
  ⟨by decide,
    ((removePrefixes_contract [(pfxA, entryOf pfxA .LOOPBACK (some false))]
      [entryOf pfxA .LOOPBACK none]).2.1 (by decide)).2⟩

/-- C5 as stated fails on the empty input: `removePrefixes` returns true and
the map is the map before the call. -/
theorem removePrefixes_unchanged_iff_counterexample :
    ¬ (MapEq (removePrefixes [(pfxA, entryOf pfxA .LOOPBACK none)] []).2
          [(pfxA, entryOf pfxA .LOOPBACK none)] ↔
        (removePrefixes [(pfxA, entryOf pfxA .LOOPBACK none)] []).1 = false) := by
  intro h
  have h1 := h.1 (fun _ => rfl)
  revert h1
  decide

/-- C5, amended: `removePrefixes` leaves the map equal to the map before the
call iff it returns false or the input list is empty (repeated prefixes
included); the same holds for equality of the stored pairs. -/
theorem removePrefixes_unchanged_iff (m : PrefixMap) (es : List PrefixEntry) :
    (MapEq (removePrefixes m es).2 m ↔ ((removePrefixes m es).1 = false ∨ es = [])) ∧
    ((removePrefixes m es).2 = m ↔ ((removePrefixes m es).1 = false ∨ es = [])) := by
  have key : ((removePrefixes m es).1 = false ∨ es = []) → (removePrefixes m es).2 = m := by
    intro h
    rcases h with h | h
    · unfold removePrefixes at h ⊢
      by_cases hv : removePrefixesVerify m es = true
      · simp [hv] at h
      · simp [hv]
    · subst h
      rfl
  have back : MapEq (removePrefixes m es).2 m →
      ((removePrefixes m es).1 = false ∨ es = []) := by
    intro heq
    by_cases hv : removePrefixesVerify m es = true
    · right
      cases es with
      | nil => rfl
      | cons p rest =>
        exfalso
        obtain ⟨stored, hs, _⟩ :=
          (removePrefixesVerify_iff m (p :: rest)).1 hv p (List.mem_cons_self _ _)
        have h2 := heq p.prefix_
        simp only [removePrefixes, hv, if_true, find_removePrefixesErase, List.map_cons,
          List.mem_cons, true_or, hs] at h2
        cases h2
    · left
      simp [removePrefixes, hv]
  refine ⟨⟨back, fun h => ?_⟩, ⟨fun h => back ?_, key⟩⟩
  · rw [key h]
    exact fun _ => rfl
  · rw [h]
    exact fun _ => rfl

/-! ## addOrUpdatePrefixes -/

theorem lastInputFor_cons (p : PrefixEntry) (rest : List PrefixEntry) (k : IpPrefix) :
    lastInputFor (p :: rest) k =
      match lastInputFor rest k with
      | some e => some e
      | none => if p.prefix_ = k then some p else none := by
  unfold lastInputFor
  by_cases h : p.prefix_ = k
  · rw [List.filter_cons_of_pos (by simpa using h), List.getLast?_cons]
    generalize (List.filter (fun e => decide (e.prefix_ = k)) rest).getLast? = o
    cases o <;> simp [h]
  · rw [List.filter_cons_of_neg (by simpa using h)]
    generalize (List.filter (fun e => decide (e.prefix_ = k)) rest).getLast? = o
    cases o <;> simp [h]

theorem lastInputFor_eq_none_iff (es : List PrefixEntry) (k : IpPrefix) :
    lastInputFor es k = none ↔ k ∉ es.map (fun e => e.prefix_) := by
  unfold lastInputFor
  simp only [List.getLast?_eq_none_iff, List.filter_eq_nil_iff, List.mem_map, not_exists,
    not_and, decide_eq_true_eq]

theorem find_addOrUpdatePrefixesLoop (es : List PrefixEntry) (m : PrefixMap) (u : Bool)
    (k : IpPrefix) :
    find (addOrUpdatePrefixesLoop es m u).2 k =
      match lastInputFor es k with
      | some e => some e
      | none => find m k := by
  induction es generalizing m u with
  | nil => simp [addOrUpdatePrefixesLoop, lastInputFor]
  | cons p rest ih =>
    rw [lastInputFor_cons]
    unfold addOrUpdatePrefixesLoop
    cases hf : find m p.prefix_ with
    | none =>
      simp only [ih, find_emplace m p.prefix_ k p hf]
      cases lastInputFor rest k with
      | some e => rfl
      | none =>
        by_cases h : p.prefix_ = k
        · simp [h]
        · simp [h]
    | some stored =>
      by_cases hne : stored = p
      · simp only [hne, ne_eq, not_true_eq_false, if_false, ih]
        cases lastInputFor rest k with
        | some e => rfl
        | none =>
          by_cases h : p.prefix_ = k
          · subst h
            simp [hf, hne]
          · simp [h]
      · simp only [ne_eq, hne, not_false_eq_true, if_true, ih,
          find_assign m p.prefix_ k p stored hf]
        cases lastInputFor rest k with
        | some e => rfl
        | none =>
          by_cases h : p.prefix_ = k
          · simp [h]
          · simp [h]

/-- C3: after `addOrUpdatePrefixes` the map holds, under every prefix that
occurs in the input, the last input entry with that prefix, and looking up a
prefix that does not occur in the input gives what it gave before the call. -/
theorem addOrUpdatePrefixes_lookup (m : PrefixMap) (es : List PrefixEntry) (k : IpPrefix) :
    (k ∈ es.map (fun e => e.prefix_) →
      ∃ e, (es.filter (fun e => decide (e.prefix_ = k))).getLast? = some e ∧
        find (addOrUpdatePrefixes m es).2 k = some e) ∧
    (k ∉ es.map (fun e => e.prefix_) →
      find (addOrUpdatePrefixes m es).2 k = find m k) := by
  have h := find_addOrUpdatePrefixesLoop es m false k
  constructor
  · intro hk
    cases hl : lastInputFor es k with
    | none => exact absurd hk ((lastInputFor_eq_none_iff es k).1 hl)
    | some e =>
      refine ⟨e, hl, ?_⟩
      rw [hl] at h
      exact h
  · intro hk
    rw [(lastInputFor_eq_none_iff es k).2 hk] at h
    exact h

/-- C3 at a concrete call: `A` is given twice (the second time as BGP) and
`B` is not in the input. -/
theorem addOrUpdatePrefixes_lookup_witness :
    (∃ e, ([entryOf pfxA .LOOPBACK none, entryOf pfxA .BGP none].filter
          (fun e => decide (e.prefix_ = pfxA))).getLast? = some e ∧
      find (addOrUpdatePrefixes [(pfxB, entryOf pfxB .LOOPBACK none)]
        [entryOf pfxA .LOOPBACK none, entryOf pfxA .BGP none]).2 pfxA = some e) ∧
    find (addOrUpdatePrefixes [(pfxB, entryOf pfxB .LOOPBACK none)]
        [entryOf pfxA .LOOPBACK none, entryOf pfxA .BGP none]).2 pfxB =
      find [(pfxB, entryOf pfxB .LOOPBACK none)] pfxB :=
  ⟨(addOrUpdatePrefixes_lookup [(pfxB, entryOf pfxB .LOOPBACK none)]
      [entryOf pfxA .LOOPBACK none, entryOf pfxA .BGP none] pfxA).1 (by decide),
   (addOrUpdatePrefixes_lookup [(pfxB, entryOf pfxB .LOOPBACK none)]
      [entryOf pfxA .LOOPBACK none, entryOf pfxA .BGP none] pfxB).2 (by decide)⟩

/-! ## removePrefixesByType -/

theorem removePrefixesByTypeLoop_snd (t : PrefixType) (m : PrefixMap) (c : Bool) :
    (removePrefixesByTypeLoop t m c).2 = m.filter (fun kv => decide (kv.2.type ≠ t)) := by
  induction m generalizing c with
  | nil => rfl
  | cons hd tl ih =>
    obtain ⟨a, b⟩ := hd
    by_cases h : b.type = t
    · simp [removePrefixesByTypeLoop, h, ih]
    · simp [removePrefixesByTypeLoop, h, ih]

theorem removePrefixesByTypeLoop_fst (t : PrefixType) (m : PrefixMap) (c : Bool) :
    (removePrefixesByTypeLoop t m c).1 = true ↔ (c = true ∨ ∃ kv ∈ m, kv.2.type = t) := by
  induction m generalizing c with
  | nil => simp [removePrefixesByTypeLoop]
  | cons hd tl ih =>
    obtain ⟨a, b⟩ := hd
    by_cases h : b.type = t
    · simp [removePrefixesByTypeLoop, h, ih]
    · simp [removePrefixesByTypeLoop, h, ih]

theorem find_filter_of_find (q : IpPrefix × PrefixEntry → Bool) (m : PrefixMap)
    (k : IpPrefix) (v : PrefixEntry) (h : find m k = some v) (hq : q (k, v) = true) :
    find (m.filter q) k = some v := by
  induction m with
  | nil => simp [find] at h
  | cons hd tl ih =>
    obtain ⟨a, b⟩ := hd
    by_cases ha : a = k
    · subst ha
      have hb : b = v := by simpa [find] using h
      subst hb
      simp [List.filter_cons, hq, find]
    · have h' : find tl k = some v := by simpa [find, ha] using h
      by_cases hqa : q (a, b) = true
      · simp [List.filter_cons, hqa, find, ha, ih h']
      · simp [List.filter_cons, hqa, ih h']

/-- C4: after `removePrefixesByType(t)` no entry of type `t` is in the map,
every entry of another type is still there unchanged (as a stored pair and as
a lookup result), nothing else is there, and the returned flag is true iff the
old map held at least one entry of type `t`. -/
theorem removePrefixesByType_contract (m : PrefixMap) (t : PrefixType) :
    (∀ kv ∈ (removePrefixesByType m t).2, kv.2.type ≠ t) ∧
    (∀ kv ∈ m, kv.2.type ≠ t → kv ∈ (removePrefixesByType m t).2) ∧
    (∀ k v, find m k = some v → v.type ≠ t →
      find (removePrefixesByType m t).2 k = some v) ∧
    (∀ kv ∈ (removePrefixesByType m t).2, kv ∈ m) ∧
    ((removePrefixesByType m t).1 = true ↔ ∃ kv ∈ m, kv.2.type = t) := by
  unfold removePrefixesByType
  rw [removePrefixesByTypeLoop_snd]
  refine ⟨?_, ?_, ?_, ?_, ?_⟩
  · intro kv hkv
    simpa using (List.mem_filter.1 hkv).2
  · intro kv hkv ht
    exact List.mem_filter.2 ⟨hkv, by simpa using ht⟩
  · intro k v hf ht
    exact find_filter_of_find _ m k v hf (by simpa using ht)
  · intro kv hkv
    exact (List.mem_filter.1 hkv).1
  · simpa using removePrefixesByTypeLoop_fst t m false

/-- C4 at the map of scenario S6, withdrawing the LOOPBACK entries. -/
theorem removePrefixesByType_contract_witness :
    find (removePrefixesByType
      [(pfxA, entryOf pfxA .LOOPBACK none), (pfxB, entryOf pfxB .LOOPBACK none),
        (pfxC, entryOf pfxC .BGP none)] .LOOPBACK).2 pfxC = some (entryOf pfxC .BGP none) :=
  (removePrefixesByType_contract
      [(pfxA, entryOf pfxA .LOOPBACK none), (pfxB, entryOf pfxB .LOOPBACK none),
        (pfxC, entryOf pfxC .BGP none)] .LOOPBACK).2.2.1 pfxC (entryOf pfxC .BGP none)
    (by decide) (by decide)

/-! ## syncPrefixesByType -/

theorem mem_setEmplace (s : List IpPrefix) (a k : IpPrefix) :
    k ∈ setEmplace s a ↔ k ∈ s ∨ k = a := by
  unfold setEmplace
  by_cases h : a ∈ s
  · simp only [h, if_true]
    constructor
    · exact Or.inl
    · rintro (h1 | h1)
      · exact h1
      · rw [h1]
        exact h
  · simp [h]

theorem mem_collectNewPrefixes (es : List PrefixEntry) (s : List IpPrefix) (k : IpPrefix) :
    k ∈ collectNewPrefixes es s ↔ k ∈ s ∨ k ∈ es.map (fun e => e.prefix_) := by
  induction es generalizing s with
  | nil => simp [collectNewPrefixes]
  | cons p rest ih =>
    simp only [collectNewPrefixes, ih, mem_setEmplace, List.map_cons, List.mem_cons]
    tauto

theorem find_syncEraseLoop_of_not_mem (t : PrefixType) (np : List IpPrefix) (m : PrefixMap)
    (u : Bool) (k : IpPrefix) (hk : k ∉ np) :
    find (syncEraseLoop t np m u).2 k = find (specRemoveType t m) k := by
  induction m generalizing u with
  | nil => rfl
  | cons hd tl ih =>
    obtain ⟨a, b⟩ := hd
    unfold syncEraseLoop specRemoveType
    by_cases ht : b.type = t
    · by_cases hc : List.count a np = 0
      · simp only [ht, hc, and_self, if_true, ne_eq, not_true_eq_false, decide_False,
          List.filter_cons_of_neg, Bool.false_eq_true, not_false_eq_true]
        exact ih true
      · have hane : a ≠ k := by
          intro e
          subst e
          exact hc (List.count_eq_zero.2 hk)
        simp only [ht, hc, and_false, if_false, find, hane, ne_eq, not_true_eq_false,
          decide_False, Bool.false_eq_true, not_false_eq_true, List.filter_cons_of_neg]
        exact ih u
    · simp only [ht, false_and, if_false, find, ne_eq, not_false_eq_true, decide_True,
        List.filter_cons_of_pos]
      by_cases hak : a = k
      · simp [hak]
      · simp only [hak, if_false]
        exact ih u

theorem find_foldl_specUpsert (es : List PrefixEntry) (m : PrefixMap) (k : IpPrefix) :
    find (es.foldl specUpsert m) k =
      match lastInputFor es k with
      | some e => some e
      | none => find m k := by
  induction es generalizing m with
  | nil => simp [lastInputFor]
  | cons p rest ih =>
    rw [lastInputFor_cons, List.foldl_cons, ih]
    cases lastInputFor rest k with
    | some e => rfl
    | none =>
      simp only [specUpsert, find_append_single, find_erase]
      by_cases h : p.prefix_ = k
      · simp [h]
      · simp only [h, if_false]
        cases find m k <;> rfl

/-- C2: the map after `syncPrefixesByType(t, entries)` equals the old map with
every entry of type `t` removed and the input entries then upserted in order
under their prefixes.  Scenario S6: from `{A: LOOPBACK, B: LOOPBACK, C: BGP}`,
syncing LOOPBACK with `[A, D]` returns true and leaves `A`, `C`, `D`, with `D`
a LOOPBACK entry and `B` gone. -/
theorem syncPrefixesByType_refines_spec :
    (∀ (m : PrefixMap) (t : PrefixType) (es : List PrefixEntry),
      MapEq (syncPrefixesByType m t es).2 (specSyncByType m t es)) ∧
    syncPrefixesByType
        [(pfxA, entryOf pfxA .LOOPBACK none), (pfxB, entryOf pfxB .LOOPBACK none),
          (pfxC, entryOf pfxC .BGP none)] .LOOPBACK
        [entryOf pfxA .LOOPBACK none, entryOf pfxD .LOOPBACK none] =
      (true, [(pfxA, entryOf pfxA .LOOPBACK none), (pfxC, entryOf pfxC .BGP none),
        (pfxD, entryOf pfxD .LOOPBACK none)]) := by
  refine ⟨?_, by decide⟩
  intro m t es k
  unfold syncPrefixesByType specSyncByType addOrUpdatePrefixes
  simp only [find_addOrUpdatePrefixesLoop, find_foldl_specUpsert]
  cases hl : lastInputFor es k with
  | some e => rfl
  | none =>
    have hk : k ∉ es.map (fun e => e.prefix_) := (lastInputFor_eq_none_iff es k).1 hl
    exact find_syncEraseLoop_of_not_mem t _ m false k
      (fun hmem => hk (by simpa using (mem_collectNewPrefixes es [] k).1 hmem))

/-! ## Request processing -/

theorem allEntriesLoop_eq (m : PrefixMap) (acc : List PrefixEntry) :
    allEntriesLoop m acc = acc ++ m.map Prod.snd := by
  induction m generalizing acc with
  | nil => simp [allEntriesLoop]
  | cons hd tl ih =>
    obtain ⟨a, b⟩ := hd
    simp [allEntriesLoop, ih]

theorem persistentEntriesLoop_eq (m : PrefixMap) (acc : List PrefixEntry) :
    persistentEntriesLoop m acc =
      acc ++ (m.filter (fun kv => kv.2.persistent)).map Prod.snd := by
  induction m generalizing acc with
  | nil => simp [persistentEntriesLoop]
  | cons hd tl ih =>
    obtain ⟨a, b⟩ := hd
    by_cases h : b.persistent = true
    · simp [persistentEntriesLoop, h, ih]
    · simp [persistentEntriesLoop, h, ih]

theorem persistent_iff (e : PrefixEntry) :
    e.persistent = true ↔ (e.ephemeral = none ∨ e.ephemeral = some false) := by
  unfold PrefixEntry.persistent
  cases e.ephemeral with
  | none => simp
  | some b => cases b <;> simp

theorem removePrefixes_of_bad (m : PrefixMap) (es : List PrefixEntry)
    (hbad : ∃ e ∈ es, find m e.prefix_ = none ∨
      ∃ stored, find m e.prefix_ = some stored ∧ stored.type ≠ e.type) :
    removePrefixes m es = (false, m) := by
  have hv : ¬ removePrefixesVerify m es = true := by
    intro h
    obtain ⟨e, he, hb⟩ := hbad
    obtain ⟨stored, hs, ht⟩ := (removePrefixesVerify_iff m es).1 h e he
    rcases hb with hb | ⟨st, hb, hne⟩
    · rw [hb] at hs
      cases hs
    · rw [hb] at hs
      cases hs
      exact hne ht
  unfold removePrefixes
  simp [hv]

/-- C6: a `WITHDRAW_PREFIXES` request holding an entry whose prefix is not in
the map, or is stored with another type, is answered with `success = false`
and the message "No prefix to remove"; the whole state is the state before the
call, so the map is unchanged and nothing is published to the KV store or
written to disk. -/
theorem withdraw_mismatch_fails (s : State) (env : Env) (req : PrefixManagerRequest)
    (hcmd : req.cmd = .WITHDRAW_PREFIXES)
    (hbad : ∃ e ∈ req.prefixes, find s.prefixMap e.prefix_ = none ∨
      ∃ stored, find s.prefixMap e.prefix_ = some stored ∧ stored.type ≠ e.type) :
    processRequestMsg s env (some req) = (s, some ⟨false, "No prefix to remove", []⟩) ∧
    (processRequestMsg s env (some req)).1.prefixMap = s.prefixMap ∧
    (processRequestMsg s env (some req)).1.kvPublished = s.kvPublished ∧
    (processRequestMsg s env (some req)).1.diskWritten = s.diskWritten := by
  have h : processRequestMsg s env (some req) =
      (s, some ⟨false, "No prefix to remove", []⟩) := by
    simp only [processRequestMsg, processCommand, hcmd, removePrefixes_of_bad _ _ hbad]
    simp [kErrorNoPrefixToRemove]
  rw [h]
  exact ⟨rfl, rfl, rfl, rfl⟩

/-- C6 in scenario S5: the map holds `10.0.0.0/8` as LOOPBACK and the request
withdraws it as BGP. -/
theorem withdraw_mismatch_fails_witness :
    processRequestMsg stateS5 envLate
        (some (mkRequest .WITHDRAW_PREFIXES [entryOf pfxA .BGP none] .BGP)) =
      (stateS5, some ⟨false, "No prefix to remove", []⟩) :=
  (withdraw_mismatch_fails stateS5 envLate
    (mkRequest .WITHDRAW_PREFIXES [entryOf pfxA .BGP none] .BGP) rfl
    ⟨entryOf pfxA .BGP none, by decide, Or.inr ⟨entryOf pfxA .LOOPBACK (some false),
      by decide, by decide⟩⟩).1

theorem values_nodup (m : PrefixMap) (hu : UniqueKeys m) (hc : KeyConsistent m) :
    (m.map Prod.snd).Nodup := by
  have h : (m.map Prod.snd).map (fun e => e.prefix_) = m.map Prod.fst := by
    rw [List.map_map]
    apply List.map_congr_left
    intro kv hkv
    exact hc kv hkv
  apply List.Nodup.of_map (fun e : PrefixEntry => e.prefix_)
  rw [h]
  exact hu

/-- C9: when `persistPrefixDb` runs at or after the hold deadline it stores,
under `kConfigKey`, one database whose `thisNodeName` is the node id and whose
`prefixEntries` are the values of the map pairs with `ephemeral` absent or
false, pair by pair in map order: an entry is listed iff the map stores it and
it is persistent, no entry with `ephemeral = true` is listed, and no entry is
listed twice when the map's keys are distinct and are the entries' prefixes.
The store keeps that database when the write succeeds. -/
theorem persistPrefixDb_snapshot (s : State) (env : Env)
    (hhold : s.prefixHoldUntilTimePoint ≤ env.persistNow) :
    ∃ db : PrefixDatabase,
      (persistPrefixDb s env).diskWritten = s.diskWritten ++ [⟨kConfigKey, db⟩] ∧
      (env.storeOk = true → (persistPrefixDb s env).disk = some db) ∧
      db.thisNodeName = s.nodeId ∧
      db.prefixEntries = (s.prefixMap.filter (fun kv => kv.2.persistent)).map Prod.snd ∧
      (∀ e, e ∈ db.prefixEntries ↔
        (∃ k, (k, e) ∈ s.prefixMap) ∧ (e.ephemeral = none ∨ e.ephemeral = some false)) ∧
      (∀ e ∈ db.prefixEntries, e.ephemeral ≠ some true) ∧
      (UniqueKeys s.prefixMap → KeyConsistent s.prefixMap → db.prefixEntries.Nodup) ∧
      (persistPrefixDb s env).prefixMap = s.prefixMap := by
  have hlt : ¬ env.persistNow < s.prefixHoldUntilTimePoint := Nat.not_lt.2 hhold
  have hentries : (persistentPrefixDb s env.unixTs).prefixEntries =
      (s.prefixMap.filter (fun kv => kv.2.persistent)).map Prod.snd := by
    simp [persistentPrefixDb, persistentEntriesLoop_eq]
  have hmem : ∀ e, e ∈ (persistentPrefixDb s env.unixTs).prefixEntries ↔
      (∃ k, (k, e) ∈ s.prefixMap) ∧ (e.ephemeral = none ∨ e.ephemeral = some false) := by
    intro e
    rw [hentries, ← persistent_iff]
    simp only [List.mem_map, List.mem_filter, Prod.exists, exists_eq_right]
    constructor
    · rintro ⟨k, hk, hp⟩
      exact ⟨⟨k, hk⟩, hp⟩
    · rintro ⟨⟨k, hk⟩, hp⟩
      exact ⟨k, hk, hp⟩
  refine ⟨persistentPrefixDb s env.unixTs, ?_, ?_, rfl, hentries, hmem, ?_, ?_, ?_⟩
  · simp [persistPrefixDb, hlt]
  · intro hok
    simp [persistPrefixDb, hlt, hok]
  · intro e he
    rcases ((hmem e).1 he).2 with h | h <;> simp [h]
  · intro hu hc
    rw [hentries]
    exact (values_nodup s.prefixMap hu hc).sublist
      ((List.filter_sublist s.prefixMap).map Prod.snd)
  · simp [persistPrefixDb, hlt]

/-- C9 at a map holding a persistent LOOPBACK entry and an ephemeral BGP
entry, stored at the hold deadline itself. -/
theorem persistPrefixDb_snapshot_witness :
    ∃ db : PrefixDatabase,
      (persistPrefixDb { stateS5 with prefixMap :=
          [(pfxA, entryOf pfxA .LOOPBACK none), (pfxC, entryOf pfxC .BGP (some true))] }
        { envLate with persistNow := 5 }).diskWritten =
        stateS5.diskWritten ++ [⟨kConfigKey, db⟩] ∧
      db.thisNodeName = "node1" ∧
      db.prefixEntries = [entryOf pfxA .LOOPBACK none] := by
  obtain ⟨db, h1, _, h3, h4, _⟩ := persistPrefixDb_snapshot
    { stateS5 with prefixMap :=
      [(pfxA, entryOf pfxA .LOOPBACK none), (pfxC, entryOf pfxC .BGP (some true))] }
    { envLate with persistNow := 5 } (by decide)
  exact ⟨db, h1, h3, h4⟩

theorem persistPrefixDb_kvPublished (s : State) (env : Env) :
    (persistPrefixDb s env).kvPublished = s.kvPublished := by
  unfold persistPrefixDb
  split <;> rfl

theorem persistPrefixDb_prefixMap (s : State) (env : Env) :
    (persistPrefixDb s env).prefixMap = s.prefixMap := by
  unfold persistPrefixDb
  split <;> rfl

theorem updateKvStore_prefixMap (s : State) (env : Env) :
    (updateKvStore s env).prefixMap = s.prefixMap := by
  unfold updateKvStore
  split <;> rfl

theorem updateKvStore_diskWritten (s : State) (env : Env) :
    (updateKvStore s env).diskWritten = s.diskWritten := by
  unfold updateKvStore
  split <;> rfl

theorem updateKvStore_hold (s : State) (env : Env) :
    (updateKvStore s env).prefixHoldUntilTimePoint = s.prefixHoldUntilTimePoint := by
  unfold updateKvStore
  split <;> rfl

theorem updateKvStore_kvPublished (s : State) (env : Env)
    (h : s.prefixHoldUntilTimePoint ≤ env.kvNow) :
    (updateKvStore s env).kvPublished =
      s.kvPublished ++ [⟨s.prefixDbMarker ++ s.nodeId,
        ⟨s.nodeId, s.prefixMap.map Prod.snd, none⟩, s.kvStoreDbTtl⟩] := by
  have hlt : ¬ env.kvNow < s.prefixHoldUntilTimePoint := Nat.not_lt.2 h
  simp [updateKvStore, hlt, allEntriesLoop_eq]

/-- What a successful mutating command leaves in the KV log: the publication
made by `updateKvStore` on the state `s1` that holds the new map. -/
theorem publication_after_success (s1 : State) (env : Env) (b : Bool)
    (h : s1.prefixHoldUntilTimePoint ≤ env.kvNow) :
    (if b = true then persistPrefixDb (updateKvStore s1 env) env
      else updateKvStore s1 env).kvPublished =
      s1.kvPublished ++ [⟨s1.prefixDbMarker ++ s1.nodeId,
        ⟨s1.nodeId,
          (if b = true then persistPrefixDb (updateKvStore s1 env) env
            else updateKvStore s1 env).prefixMap.map Prod.snd, none⟩, s1.kvStoreDbTtl⟩] := by
  cases b
  · simp only [Bool.false_eq_true, if_false]
    rw [updateKvStore_kvPublished _ _ h, updateKvStore_prefixMap]
  · simp only [if_true]
    rw [persistPrefixDb_kvPublished, persistPrefixDb_prefixMap,
      updateKvStore_kvPublished _ _ h, updateKvStore_prefixMap]

/-- C10: a mutating command processed at or after the hold deadline that is
answered with `success = true` makes exactly one KV-store publication, under
the key made of the prefix-db marker followed by the node id, of a database
whose `thisNodeName` is the node id and whose `prefixEntries` are the values
of the map after the command; answered with `success = false` it makes no
publication. -/
theorem mutating_command_publication (s : State) (env : Env) (req : PrefixManagerRequest)
    (hm : req.cmd.mutating = true) (hhold : s.prefixHoldUntilTimePoint ≤ env.kvNow) :
    ∃ resp, (processRequestMsg s env (some req)).2 = some resp ∧
      (resp.success = true →
        (processRequestMsg s env (some req)).1.kvPublished =
          s.kvPublished ++ [⟨s.prefixDbMarker ++ s.nodeId,
            ⟨s.nodeId, (processRequestMsg s env (some req)).1.prefixMap.map Prod.snd, none⟩,
            s.kvStoreDbTtl⟩]) ∧
      (resp.success = false →
        (processRequestMsg s env (some req)).1.kvPublished = s.kvPublished) := by
  obtain ⟨cmd, prefixes, type⟩ := req
  cases cmd with
  | ADD_PREFIXES =>
    simp only [processRequestMsg, processCommand]
    cases hr : (addOrUpdatePrefixes s.prefixMap prefixes).1 with
    | true =>
      refine ⟨_, rfl, fun _ => ?_, fun h => by simp at h⟩
      simpa using publication_after_success
        { s with addPrefixesCount := s.addPrefixesCount + 1,
                 prefixMap := (addOrUpdatePrefixes s.prefixMap prefixes).2 } env _ hhold
    | false => exact ⟨_, rfl, fun h => by simp at h, fun _ => by simp⟩
  | WITHDRAW_PREFIXES =>
    simp only [processRequestMsg, processCommand]
    cases hr : (removePrefixes s.prefixMap prefixes).1 with
    | true =>
      refine ⟨_, rfl, fun _ => ?_, fun h => by simp at h⟩
      have h := publication_after_success
        { s with prefixMap := (removePrefixes s.prefixMap prefixes).2 } env
        (isAnyExistingPrefixPersistent s.prefixMap prefixes) hhold
      cases hb : isAnyExistingPrefixPersistent s.prefixMap prefixes
      · rw [hb] at h
        simpa [persistPrefixDb_kvPublished, persistPrefixDb_prefixMap] using h
      · rw [hb] at h
        simpa [persistPrefixDb_kvPublished, persistPrefixDb_prefixMap] using h
    | false => exact ⟨_, rfl, fun h => by simp at h, fun _ => by simp⟩
  | WITHDRAW_PREFIXES_BY_TYPE =>
    simp only [processRequestMsg, processCommand]
    cases hr : (removePrefixesByType s.prefixMap type).1 with
    | true =>
      refine ⟨_, rfl, fun _ => ?_, fun h => by simp at h⟩
      simpa using publication_after_success
        { s with prefixMap := (removePrefixesByType s.prefixMap type).2 } env _ hhold
    | false => exact ⟨_, rfl, fun h => by simp at h, fun _ => by simp⟩
  | SYNC_PREFIXES_BY_TYPE =>
    simp only [processRequestMsg, processCommand]
    cases hr : (syncPrefixesByType s.prefixMap type prefixes).1 with
    | true =>
      refine ⟨_, rfl, fun _ => ?_, fun h => by simp at h⟩
      simpa using publication_after_success
        { s with prefixMap := (syncPrefixesByType s.prefixMap type prefixes).2 } env
        (isAnyExistingPrefixPersistentByType type s.prefixMap ||
          isAnyInputPrefixPersistent prefixes) hhold
    | false => exact ⟨_, rfl, fun h => by simp at h, fun _ => by simp⟩
  | GET_ALL_PREFIXES => simp [PrefixManagerCommand.mutating] at hm
  | GET_PREFIXES_BY_TYPE => simp [PrefixManagerCommand.mutating] at hm
  | unknown v => simp [PrefixManagerCommand.mutating] at hm

/-- C10 at the last step of scenario S5: withdrawing the stored LOOPBACK
prefix after the hold deadline. -/
theorem mutating_command_publication_witness :
    ∃ resp, (processRequestMsg stateS5 envLate
        (some (mkRequest .WITHDRAW_PREFIXES [entryOf pfxA .LOOPBACK none] .LOOPBACK))).2 =
          some resp ∧
      (resp.success = true →
        (processRequestMsg stateS5 envLate
          (some (mkRequest .WITHDRAW_PREFIXES [entryOf pfxA .LOOPBACK none]
            .LOOPBACK))).1.kvPublished =
          stateS5.kvPublished ++ [⟨stateS5.prefixDbMarker ++ stateS5.nodeId,
            ⟨stateS5.nodeId, (processRequestMsg stateS5 envLate
              (some (mkRequest .WITHDRAW_PREFIXES [entryOf pfxA .LOOPBACK none]
                .LOOPBACK))).1.prefixMap.map Prod.snd, none⟩,
            stateS5.kvStoreDbTtl⟩]) ∧
      (resp.success = false →
        (processRequestMsg stateS5 envLate
          (some (mkRequest .WITHDRAW_PREFIXES [entryOf pfxA .LOOPBACK none]
            .LOOPBACK))).1.kvPublished = stateS5.kvPublished) :=
  mutating_command_publication stateS5 envLate
    (mkRequest .WITHDRAW_PREFIXES [entryOf pfxA .LOOPBACK none] .LOOPBACK) rfl (by decide)

/-! ## When the persistent snapshot is written -/

theorem isAnyInputPrefixPersistent_iff (es : List PrefixEntry) :
    isAnyInputPrefixPersistent es = true ↔ anyInputPersistent es := by
  unfold anyInputPersistent
  induction es with
  | nil => simp [isAnyInputPrefixPersistent]
  | cons p rest ih =>
    unfold isAnyInputPrefixPersistent
    by_cases h : p.persistent = true
    · have h' := (persistent_iff p).1 h
      simp [h, h']
    · have h' : ¬ (p.ephemeral = none ∨ p.ephemeral = some false) :=
        fun x => h ((persistent_iff p).2 x)
      simp only [h, if_false, ih, List.mem_cons, exists_eq_or_imp, h', false_or,
        Bool.false_eq_true]

theorem isAnyExistingPrefixPersistent_iff (m : PrefixMap) (es : List PrefixEntry) :
    isAnyExistingPrefixPersistent m es = true ↔ anyStoredUnderInputPersistent m es := by
  unfold anyStoredUnderInputPersistent
  induction es with
  | nil => simp [isAnyExistingPrefixPersistent]
  | cons p rest ih =>
    unfold isAnyExistingPrefixPersistent
    cases hf : find m p.prefix_ with
    | none => simp [hf, ih]
    | some stored =>
      by_cases h : stored.persistent = true
      · have h' := (persistent_iff stored).1 h
        simp [hf, h, h']
      · have h' : ¬ (stored.ephemeral = none ∨ stored.ephemeral = some false) :=
          fun x => h ((persistent_iff stored).2 x)
        simp only [h, if_false, ih, List.mem_cons, exists_eq_or_imp, hf, Option.some.injEq,
          exists_eq_left', h', false_or, Bool.false_eq_true]

theorem isAnyExistingPrefixPersistentByType_iff (t : PrefixType) (m : PrefixMap) :
    isAnyExistingPrefixPersistentByType t m = true ↔ anyStoredOfTypePersistent m t := by
  unfold anyStoredOfTypePersistent
  induction m with
  | nil => simp [isAnyExistingPrefixPersistentByType]
  | cons hd tl ih =>
    obtain ⟨a, b⟩ := hd
    unfold isAnyExistingPrefixPersistentByType
    by_cases ht : b.type = t
    · by_cases h : b.persistent = true
      · have h' := (persistent_iff b).1 h
        simp [ht, h, h']
      · have h' : ¬ (b.ephemeral = none ∨ b.ephemeral = some false) :=
          fun x => h ((persistent_iff b).2 x)
        simp only [ne_eq, ht, not_true_eq_false, if_false, h, ih, List.mem_cons,
          exists_eq_or_imp, h', and_false, false_or, Bool.false_eq_true]
    · simp only [ne_eq, ht, not_false_eq_true, if_true, ih, List.mem_cons, exists_eq_or_imp,
        false_and, false_or]

theorem updateKvStore_nodeId (s : State) (env : Env) :
    (updateKvStore s env).nodeId = s.nodeId := by
  unfold updateKvStore
  split <;> rfl

theorem processCommand_diskWritten (s : State) (env : Env) (req : PrefixManagerRequest) :
    (processCommand s env req).1.diskWritten = s.diskWritten := by
  obtain ⟨cmd, prefixes, type⟩ := req
  cases cmd <;> simp only [processCommand] <;> (try split) <;>
    simp [updateKvStore_diskWritten]

theorem processCommand_hold (s : State) (env : Env) (req : PrefixManagerRequest) :
    (processCommand s env req).1.prefixHoldUntilTimePoint = s.prefixHoldUntilTimePoint := by
  obtain ⟨cmd, prefixes, type⟩ := req
  cases cmd <;> simp only [processCommand] <;> (try split) <;>
    simp [updateKvStore_hold]

theorem processCommand_nodeId (s : State) (env : Env) (req : PrefixManagerRequest) :
    (processCommand s env req).1.nodeId = s.nodeId := by
  obtain ⟨cmd, prefixes, type⟩ := req
  cases cmd <;> simp only [processCommand] <;> (try split) <;>
    simp [updateKvStore_nodeId]

/-- The disk log after a request processed at or after the hold deadline: one
more write, of the snapshot of the state the command left, exactly when the
response is a success and `persistentEntryChange` was set. -/
theorem processRequestMsg_diskWritten (s : State) (env : Env) (req : PrefixManagerRequest)
    (hhold : s.prefixHoldUntilTimePoint ≤ env.persistNow) :
    (processRequestMsg s env (some req)).1.diskWritten =
      if ((processCommand s env req).2.1.success && (processCommand s env req).2.2) = true then
        s.diskWritten ++
          [⟨kConfigKey, persistentPrefixDb (processCommand s env req).1 env.unixTs⟩]
      else s.diskWritten := by
  have hlt : ¬ env.persistNow < (processCommand s env req).1.prefixHoldUntilTimePoint := by
    rw [processCommand_hold]
    exact Nat.not_lt.2 hhold
  simp only [processRequestMsg]
  split
  · simp [persistPrefixDb, hlt, processCommand_diskWritten]
  · exact processCommand_diskWritten s env req

theorem processRequestMsg_prefixMap (s : State) (env : Env) (req : PrefixManagerRequest) :
    (processRequestMsg s env (some req)).1.prefixMap = (processCommand s env req).1.prefixMap := by
  simp only [processRequestMsg]
  split
  · exact persistPrefixDb_prefixMap _ _
  · rfl

theorem diskWriteMade_iff (s : State) (env : Env) (req : PrefixManagerRequest)
    (hhold : s.prefixHoldUntilTimePoint ≤ env.persistNow) :
    diskWriteMade s (processRequestMsg s env (some req)).1 ↔
      ((processCommand s env req).2.1.success = true ∧ (processCommand s env req).2.2 = true) := by
  unfold diskWriteMade
  rw [processRequestMsg_diskWritten s env req hhold]
  by_cases h : ((processCommand s env req).2.1.success && (processCommand s env req).2.2) = true
  · simp only [h, if_true]
    simp only [Bool.and_eq_true] at h
    simp [h]
  · simp only [h, if_false]
    simp only [Bool.and_eq_true] at h
    simp [h]

theorem processCommand_add (s : State) (env : Env) (req : PrefixManagerRequest)
    (hcmd : req.cmd = .ADD_PREFIXES) :
    (processCommand s env req).2.1.success = (addOrUpdatePrefixes s.prefixMap req.prefixes).1 ∧
    (processCommand s env req).2.2 = isAnyInputPrefixPersistent req.prefixes := by
  simp only [processCommand, hcmd]
  cases (addOrUpdatePrefixes s.prefixMap req.prefixes).1 <;> simp

theorem processCommand_withdraw (s : State) (env : Env) (req : PrefixManagerRequest)
    (hcmd : req.cmd = .WITHDRAW_PREFIXES) :
    (processCommand s env req).2.1.success = (removePrefixes s.prefixMap req.prefixes).1 ∧
    (processCommand s env req).2.2 = isAnyExistingPrefixPersistent s.prefixMap req.prefixes := by
  simp only [processCommand, hcmd]
  cases (removePrefixes s.prefixMap req.prefixes).1 <;> simp

theorem processCommand_withdrawByType (s : State) (env : Env) (req : PrefixManagerRequest)
    (hcmd : req.cmd = .WITHDRAW_PREFIXES_BY_TYPE) :
    (processCommand s env req).2.1.success = (removePrefixesByType s.prefixMap req.type).1 ∧
    (processCommand s env req).2.2 =
      isAnyExistingPrefixPersistentByType req.type s.prefixMap := by
  simp only [processCommand, hcmd]
  cases (removePrefixesByType s.prefixMap req.type).1 <;> simp

theorem processCommand_sync (s : State) (env : Env) (req : PrefixManagerRequest)
    (hcmd : req.cmd = .SYNC_PREFIXES_BY_TYPE) :
    (processCommand s env req).2.1.success =
      (syncPrefixesByType s.prefixMap req.type req.prefixes).1 ∧
    (processCommand s env req).2.2 =
      (isAnyExistingPrefixPersistentByType req.type s.prefixMap ||
        isAnyInputPrefixPersistent req.prefixes) := by
  simp only [processCommand, hcmd]
  cases (syncPrefixesByType s.prefixMap req.type req.prefixes).1 <;> simp

/-- C7 as stated fails: a `WITHDRAW_PREFIXES` request whose input entry is
persistent succeeds on a map that stores the prefix as an ephemeral entry, so
the request is persistent-affecting in the stated sense, yet nothing is
written to disk. -/
theorem disk_write_iff_persistent_affecting_counterexample :
    (mkRequest .WITHDRAW_PREFIXES [entryOf pfxA .LOOPBACK none] .LOOPBACK).cmd.mutating = true ∧
    stateEphemeral.prefixHoldUntilTimePoint ≤ envLate.persistNow ∧
    ¬ (diskWriteMade stateEphemeral
        (processRequestMsg stateEphemeral envLate
          (some (mkRequest .WITHDRAW_PREFIXES [entryOf pfxA .LOOPBACK none] .LOOPBACK))).1 ↔
      ((∃ resp, (processRequestMsg stateEphemeral envLate
          (some (mkRequest .WITHDRAW_PREFIXES [entryOf pfxA .LOOPBACK none] .LOOPBACK))).2 =
            some resp ∧ resp.success = true) ∧
        specPersistentAffecting stateEphemeral.prefixMap
          (mkRequest .WITHDRAW_PREFIXES [entryOf pfxA .LOOPBACK none] .LOOPBACK))) := by
  refine ⟨rfl, by decide, fun h => ?_⟩
  have hw := h.2 ⟨⟨_, rfl, rfl⟩,
    Or.inl ⟨entryOf pfxA .LOOPBACK none, List.mem_singleton.2 rfl, Or.inl rfl⟩⟩
  exact hw rfl

/-- C7, amended: for a mutating command processed at or after the hold
deadline, a disk write is made only if the command succeeds and the request is
persistent-affecting; `WITHDRAW_PREFIXES` writes iff it succeeds and some
existing entry stored under an input prefix is persistent (the input entries'
own `ephemeral` fields are not looked at); `WITHDRAW_PREFIXES_BY_TYPE` writes
iff it succeeds and some existing entry of the requested type is persistent;
`ADD_PREFIXES` writes whenever it succeeds and some input entry is persistent;
`SYNC_PREFIXES_BY_TYPE` writes whenever it succeeds and some input entry or
some existing entry of the requested type is persistent.  What is written is
the snapshot of the persistent entries of the map after the command. -/
theorem disk_write_condition (s : State) (env : Env) (req : PrefixManagerRequest)
    (hm : req.cmd.mutating = true) (hhold : s.prefixHoldUntilTimePoint ≤ env.persistNow) :
    ∃ resp, (processRequestMsg s env (some req)).2 = some resp ∧
      (diskWriteMade s (processRequestMsg s env (some req)).1 →
        resp.success = true ∧ specPersistentAffecting s.prefixMap req) ∧
      (req.cmd = .WITHDRAW_PREFIXES →
        (diskWriteMade s (processRequestMsg s env (some req)).1 ↔
          resp.success = true ∧ anyStoredUnderInputPersistent s.prefixMap req.prefixes)) ∧
      (req.cmd = .WITHDRAW_PREFIXES_BY_TYPE →
        (diskWriteMade s (processRequestMsg s env (some req)).1 ↔
          resp.success = true ∧ anyStoredOfTypePersistent s.prefixMap req.type)) ∧
      (req.cmd = .ADD_PREFIXES →
        resp.success = true ∧ anyInputPersistent req.prefixes →
          diskWriteMade s (processRequestMsg s env (some req)).1) ∧
      (req.cmd = .SYNC_PREFIXES_BY_TYPE →
        resp.success = true ∧
          (anyInputPersistent req.prefixes ∨ anyStoredOfTypePersistent s.prefixMap req.type) →
          diskWriteMade s (processRequestMsg s env (some req)).1) ∧
      (diskWriteMade s (processRequestMsg s env (some req)).1 →
        ∃ perf, (processRequestMsg s env (some req)).1.diskWritten =
          s.diskWritten ++ [⟨kConfigKey, ⟨s.nodeId,
            ((processRequestMsg s env (some req)).1.prefixMap.filter
              (fun kv => kv.2.persistent)).map Prod.snd, perf⟩⟩]) := by
  have hiff := diskWriteMade_iff s env req hhold
  refine ⟨(processCommand s env req).2.1, rfl, ?_, ?_, ?_, ?_, ?_, ?_⟩
  · intro hw
    obtain ⟨hs, hp⟩ := hiff.1 hw
    refine ⟨hs, ?_⟩
    obtain ⟨cmd, prefixes, type⟩ := req
    cases cmd with
    | ADD_PREFIXES =>
      rw [(processCommand_add s env _ rfl).2] at hp
      exact Or.inl ((isAnyInputPrefixPersistent_iff _).1 hp)
    | WITHDRAW_PREFIXES =>
      rw [(processCommand_withdraw s env _ rfl).2] at hp
      exact Or.inr ((isAnyExistingPrefixPersistent_iff _ _).1 hp)
    | WITHDRAW_PREFIXES_BY_TYPE =>
      rw [(processCommand_withdrawByType s env _ rfl).2] at hp
      exact (isAnyExistingPrefixPersistentByType_iff _ _).1 hp
    | SYNC_PREFIXES_BY_TYPE =>
      rw [(processCommand_sync s env _ rfl).2, Bool.or_eq_true] at hp
      rcases hp with hp | hp
      · exact Or.inr (Or.inr ((isAnyExistingPrefixPersistentByType_iff _ _).1 hp))
      · exact Or.inl ((isAnyInputPrefixPersistent_iff _).1 hp)
    | GET_ALL_PREFIXES => simp [PrefixManagerCommand.mutating] at hm
    | GET_PREFIXES_BY_TYPE => simp [PrefixManagerCommand.mutating] at hm
    | unknown v => simp [PrefixManagerCommand.mutating] at hm
  · intro hcmd
    rw [hiff, (processCommand_withdraw s env req hcmd).2, isAnyExistingPrefixPersistent_iff]
  · intro hcmd
    rw [hiff, (processCommand_withdrawByType s env req hcmd).2,
      isAnyExistingPrefixPersistentByType_iff]
  · intro hcmd h
    rw [hiff, (processCommand_add s env req hcmd).2, isAnyInputPrefixPersistent_iff]
    exact h
  · intro hcmd h
    rw [hiff, (processCommand_sync s env req hcmd).2, Bool.or_eq_true,
      isAnyInputPrefixPersistent_iff, isAnyExistingPrefixPersistentByType_iff]
    exact ⟨h.1, h.2.symm⟩
  · intro hw
    obtain ⟨hs, hp⟩ := hiff.1 hw
    refine ⟨(persistentPrefixDb (processCommand s env req).1 env.unixTs).perfEvents, ?_⟩
    rw [processRequestMsg_diskWritten s env req hhold, processRequestMsg_prefixMap]
    simp [hs, hp, persistentPrefixDb, persistentEntriesLoop_eq, processCommand_nodeId]

/-- C7, amended, at the last step of scenario S5: withdrawing the stored
persistent LOOPBACK prefix after the hold deadline writes the snapshot. -/
theorem disk_write_condition_witness :
    diskWriteMade stateS5 (processRequestMsg stateS5 envLate
      (some (mkRequest .WITHDRAW_PREFIXES [entryOf pfxA .LOOPBACK none] .LOOPBACK))).1 := by
  obtain ⟨resp, hresp, _, hw, _⟩ := disk_write_condition stateS5 envLate
    (mkRequest .WITHDRAW_PREFIXES [entryOf pfxA .LOOPBACK none] .LOOPBACK) rfl (by decide)
  refine (hw rfl).2 ⟨?_, entryOf pfxA .LOOPBACK none, List.mem_singleton.2 rfl,
    entryOf pfxA .LOOPBACK (some false), rfl, Or.inr rfl⟩
  have h : resp = ⟨true, "", []⟩ := (Option.some.inj hresp).symm
  rw [h]

/-- C8 fails on the code: the map stores `10.0.0.0/8` as a persistent entry
and the disk holds exactly it; `ADD_PREFIXES` with the same prefix marked
ephemeral succeeds after the hold deadline and replaces the stored entry, no
disk write is made, and the disk still holds the persistent entry although
the resulting map has no persistent entry. -/
theorem disk_stale_after_ephemeral_overwrite :
    DiskConsistent stateS5 ∧
    stateS5.prefixHoldUntilTimePoint ≤ envLate.persistNow ∧
    envLate.storeOk = true ∧
    processRequestMsg stateS5 envLate
        (some (mkRequest .ADD_PREFIXES [entryOf pfxA .LOOPBACK (some true)] .LOOPBACK)) =
      ({ stateS5 with
          prefixMap := [(pfxA, entryOf pfxA .LOOPBACK (some true))]
          addPrefixesCount := 2
          kvPublished := stateS5.kvPublished ++
            [⟨"prefix:node1", ⟨"node1", [entryOf pfxA .LOOPBACK (some true)], none⟩, 300000⟩] },
        some ⟨true, "", []⟩) ∧
    ¬ DiskConsistent (processRequestMsg stateS5 envLate
        (some (mkRequest .ADD_PREFIXES [entryOf pfxA .LOOPBACK (some true)] .LOOPBACK))).1 := by
  refine ⟨⟨_, rfl, fun e => ?_⟩, by decide, rfl, by decide, ?_⟩
  · constructor
    · intro he
      have h : e = entryOf pfxA .LOOPBACK (some false) := List.mem_singleton.1 he
      subst h
      exact ⟨⟨pfxA, List.mem_singleton.2 rfl⟩, Or.inr rfl⟩
    · rintro ⟨⟨k, hk⟩, _⟩
      have h := List.mem_singleton.1 hk
      exact List.mem_singleton.2 (congrArg Prod.snd h)
  · rintro ⟨db, hdb, hall⟩
    have hd : db = ⟨"node1", [entryOf pfxA .LOOPBACK (some false)], none⟩ :=
      (Option.some.inj hdb).symm
    subst hd
    obtain ⟨⟨k, hk⟩, _⟩ :=
      (hall (entryOf pfxA .LOOPBACK (some false))).1 (List.mem_singleton.2 rfl)
    have h : entryOf pfxA .LOOPBACK (some false) = entryOf pfxA .LOOPBACK (some true) :=
      congrArg Prod.snd (List.mem_singleton.1 hk)
    revert h
    decide

/-! ## The hold gate -/

theorem processRequestMsg_hold (s : State) (env : Env) (request : Option PrefixManagerRequest) :
    (processRequestMsg s env request).1.prefixHoldUntilTimePoint =
      s.prefixHoldUntilTimePoint := by
  cases request with
  | none => rfl
  | some req =>
    simp only [processRequestMsg]
    split
    · unfold persistPrefixDb
      split
      · exact processCommand_hold s env req
      · exact processCommand_hold s env req
    · exact processCommand_hold s env req

theorem updateKvStore_early (s : State) (env : Env)
    (h : env.kvNow < s.prefixHoldUntilTimePoint) : updateKvStore s env = s := by
  simp [updateKvStore, h]

theorem persistPrefixDb_early (s : State) (env : Env)
    (h : env.persistNow < s.prefixHoldUntilTimePoint) : persistPrefixDb s env = s := by
  simp [persistPrefixDb, h]

theorem processCommand_kvPublished_early (s : State) (env : Env) (req : PrefixManagerRequest)
    (h : env.kvNow < s.prefixHoldUntilTimePoint) :
    (processCommand s env req).1.kvPublished = s.kvPublished := by
  obtain ⟨cmd, prefixes, type⟩ := req
  cases cmd <;> simp only [processCommand] <;> (try split) <;>
    (try rw [updateKvStore_early _ _ (by simpa using h)]) <;> simp

theorem processRequestMsg_early (s : State) (env : Env) (request : Option PrefixManagerRequest)
    (hk : env.kvNow < s.prefixHoldUntilTimePoint)
    (hp : env.persistNow < s.prefixHoldUntilTimePoint) :
    (processRequestMsg s env request).1.kvPublished = s.kvPublished ∧
    (processRequestMsg s env request).1.diskWritten = s.diskWritten := by
  cases request with
  | none => exact ⟨rfl, rfl⟩
  | some req =>
    have hp' : env.persistNow < (processCommand s env req).1.prefixHoldUntilTimePoint := by
      rw [processCommand_hold]
      exact hp
    simp only [processRequestMsg]
    split
    · rw [persistPrefixDb_early _ _ hp']
      exact ⟨processCommand_kvPublished_early s env req hk, processCommand_diskWritten s env req⟩
    · exact ⟨processCommand_kvPublished_early s env req hk, processCommand_diskWritten s env req⟩

theorem processRequests_early (s : State) (run : List (Env × Option PrefixManagerRequest))
    (h : ∀ x ∈ run, x.1.kvNow < s.prefixHoldUntilTimePoint ∧
      x.1.persistNow < s.prefixHoldUntilTimePoint) :
    (processRequests s run).kvPublished = s.kvPublished ∧
    (processRequests s run).diskWritten = s.diskWritten ∧
    (processRequests s run).prefixHoldUntilTimePoint = s.prefixHoldUntilTimePoint := by
  induction run generalizing s with
  | nil => exact ⟨rfl, rfl, rfl⟩
  | cons x rest ih =>
    obtain ⟨env, request⟩ := x
    have hx := h (env, request) (List.mem_cons_self _ _)
    have hstep := processRequestMsg_early s env request hx.1 hx.2
    have hhold := processRequestMsg_hold s env request
    have := ih (processRequestMsg s env request).1 (by
      intro y hy
      rw [hhold]
      exact h y (List.mem_cons_of_mem _ hy))
    simp only [processRequests]
    rw [this.1, this.2.1, this.2.2, hstep.1, hstep.2, hhold]
    exact ⟨rfl, rfl, rfl⟩

theorem persistPrefixDb_writes_iff (s : State) (env : Env) :
    (persistPrefixDb s env).diskWritten ≠ s.diskWritten ↔
      s.prefixHoldUntilTimePoint ≤ env.persistNow := by
  by_cases h : env.persistNow < s.prefixHoldUntilTimePoint
  · rw [persistPrefixDb_early _ _ h]
    simp only [ne_eq, not_true_eq_false, false_iff, Nat.not_le]
    exact h
  · simp only [persistPrefixDb, h, if_false, ne_eq, List.append_right_eq_self,
      List.cons_ne_self, not_false_eq_true, true_iff]
    exact Nat.not_lt.1 h

theorem updateKvStore_publishes_iff (s : State) (env : Env) :
    (updateKvStore s env).kvPublished ≠ s.kvPublished ↔
      s.prefixHoldUntilTimePoint ≤ env.kvNow := by
  by_cases h : env.kvNow < s.prefixHoldUntilTimePoint
  · rw [updateKvStore_early _ _ h]
    simp only [ne_eq, not_true_eq_false, false_iff, Nat.not_le]
    exact h
  · simp only [updateKvStore, h, if_false, ne_eq, List.append_right_eq_self,
      List.cons_ne_self, not_false_eq_true, true_iff]
    exact Nat.not_lt.1 h

/-- C11: the constructor sets the hold deadline to `startTime + holdTime`, and
no request changes it.  For a manager `s` with that deadline and a call that
reads the clock as `now`: `persistPrefixDb` makes a disk write iff
`now ≥ startTime + holdTime`, and `updateKvStore` makes a KV publication iff
`now ≥ startTime + holdTime`; a sequence of requests that all read the clock
before the deadline leaves the disk log and the KV log as they were; and with
`holdTime = 0` both operations write at every time `≥ startTime`. -/
theorem hold_gate (nodeId prefixDbMarker : String) (enablePerfMeasurement : Bool)
    (holdTime kvStoreDbTtl startTime : Nat) (maybePrefixDb : Option PrefixDatabase)
    (s : State) (env : Env)
    (hs : s.prefixHoldUntilTimePoint =
      (construct nodeId prefixDbMarker enablePerfMeasurement holdTime kvStoreDbTtl startTime
        maybePrefixDb).1.prefixHoldUntilTimePoint) :
    (construct nodeId prefixDbMarker enablePerfMeasurement holdTime kvStoreDbTtl startTime
        maybePrefixDb).1.prefixHoldUntilTimePoint = startTime + holdTime ∧
    (∀ request, (processRequestMsg s env request).1.prefixHoldUntilTimePoint =
      s.prefixHoldUntilTimePoint) ∧
    ((persistPrefixDb s env).diskWritten ≠ s.diskWritten ↔
      startTime + holdTime ≤ env.persistNow) ∧
    ((updateKvStore s env).kvPublished ≠ s.kvPublished ↔
      startTime + holdTime ≤ env.kvNow) ∧
    (∀ run : List (Env × Option PrefixManagerRequest),
      (∀ x ∈ run, x.1.kvNow < startTime + holdTime ∧ x.1.persistNow < startTime + holdTime) →
        (processRequests s run).kvPublished = s.kvPublished ∧
        (processRequests s run).diskWritten = s.diskWritten) ∧
    (holdTime = 0 →
      (startTime ≤ env.persistNow → (persistPrefixDb s env).diskWritten ≠ s.diskWritten) ∧
      (startTime ≤ env.kvNow → (updateKvStore s env).kvPublished ≠ s.kvPublished)) := by
  have hd : s.prefixHoldUntilTimePoint = startTime + holdTime := hs
  refine ⟨rfl, fun request => processRequestMsg_hold s env request, ?_, ?_, ?_, ?_⟩
  · rw [persistPrefixDb_writes_iff, hd]
  · rw [updateKvStore_publishes_iff, hd]
  · intro run hrun
    have h := processRequests_early s run (by
      intro x hx
      rw [hd]
      exact hrun x hx)
    exact ⟨h.1, h.2.1⟩
  · intro h0
    subst h0
    rw [persistPrefixDb_writes_iff, updateKvStore_publishes_iff, hd]
    exact ⟨fun h => h, fun h => h⟩

/-- C11 at a manager built at time `100` with a hold time of `20`: a request
processed at time `110` publishes nothing and writes nothing. -/
theorem hold_gate_witness :
    (processRequests
        (construct "node1" "prefix:" false 20 300000 100 none).1
        [(⟨110, 110, 1000, true⟩,
          some (mkRequest .ADD_PREFIXES [entryOf pfxA .LOOPBACK none] .LOOPBACK))]).kvPublished =
      (construct "node1" "prefix:" false 20 300000 100 none).1.kvPublished ∧
    (processRequests
        (construct "node1" "prefix:" false 20 300000 100 none).1
        [(⟨110, 110, 1000, true⟩,
          some (mkRequest .ADD_PREFIXES [entryOf pfxA .LOOPBACK none] .LOOPBACK))]).diskWritten =
      (construct "node1" "prefix:" false 20 300000 100 none).1.diskWritten :=
  (hold_gate "node1" "prefix:" false 20 300000 100 none
    (construct "node1" "prefix:" false 20 300000 100 none).1 ⟨110, 110, 1000, true⟩
    rfl).2.2.2.2.1
    [(⟨110, 110, 1000, true⟩,
      some (mkRequest .ADD_PREFIXES [entryOf pfxA .LOOPBACK none] .LOOPBACK))]
    (by decide)

/-! ## What syncPrefixesByType leaves alone -/

/-- C12 as stated fails: the map stores `C` as a BGP entry, and syncing the
LOOPBACK type with an input entry for the prefix of `C` replaces it. -/
theorem syncPrefixesByType_frame_counterexample :
    find [(pfxC, entryOf pfxC .BGP none)] pfxC = some (entryOf pfxC .BGP none) ∧
    (entryOf pfxC .BGP none).type ≠ .LOOPBACK ∧
    find (syncPrefixesByType [(pfxC, entryOf pfxC .BGP none)] .LOOPBACK
      [entryOf pfxC .LOOPBACK none]).2 pfxC ≠ some (entryOf pfxC .BGP none) := by
  decide

/-- C12, amended: every entry of the old map whose type differs from `t` and
whose prefix does not occur in the input is still stored under its key, equal
to itself, after `syncPrefixesByType(t, entries)`. -/
theorem syncPrefixesByType_frame (m : PrefixMap) (t : PrefixType) (es : List PrefixEntry)
    (k : IpPrefix) (v : PrefixEntry) (hf : find m k = some v) (ht : v.type ≠ t)
    (hk : k ∉ es.map (fun e => e.prefix_)) :
    find (syncPrefixesByType m t es).2 k = some v := by
  unfold syncPrefixesByType addOrUpdatePrefixes
  simp only [find_addOrUpdatePrefixesLoop, (lastInputFor_eq_none_iff es k).2 hk]
  rw [find_syncEraseLoop_of_not_mem t _ m false k
    (fun hmem => hk (by simpa using (mem_collectNewPrefixes es [] k).1 hmem))]
  exact find_filter_of_find _ m k v hf (by simpa using ht)

/-- C12, amended, in scenario S6: `C` is a BGP entry and is not in the input
of the LOOPBACK sync. -/
theorem syncPrefixesByType_frame_witness :
    find (syncPrefixesByType
      [(pfxA, entryOf pfxA .LOOPBACK none), (pfxB, entryOf pfxB .LOOPBACK none),
        (pfxC, entryOf pfxC .BGP none)] .LOOPBACK
      [entryOf pfxA .LOOPBACK none, entryOf pfxD .LOOPBACK none]).2 pfxC =
      some (entryOf pfxC .BGP none) :=
  syncPrefixesByType_frame _ .LOOPBACK _ pfxC (entryOf pfxC .BGP none)
    (by decide) (by decide) (by decide)

/-! ## Key consistency and distinct keys -/

theorem mem_assign (m : PrefixMap) (k : IpPrefix) (v : PrefixEntry)
    (x : IpPrefix × PrefixEntry) (hx : x ∈ assign m k v) : x ∈ m ∨ x = (k, v) := by
  induction m with
  | nil => simp [assign] at hx
  | cons hd tl ih =>
    obtain ⟨a, b⟩ := hd
    by_cases ha : a = k
    · subst ha
      simp only [assign, if_true, List.mem_cons] at hx
      rcases hx with hx | hx
      · exact Or.inr hx
      · exact Or.inl (List.mem_cons_of_mem _ hx)
    · simp only [assign, ha, if_false, List.mem_cons] at hx
      rcases hx with hx | hx
      · exact Or.inl (hx ▸ List.mem_cons_self _ _)
      · rcases ih hx with h | h
        · exact Or.inl (List.mem_cons_of_mem _ h)
        · exact Or.inr h

theorem keys_assign (m : PrefixMap) (k : IpPrefix) (v : PrefixEntry) :
    (assign m k v).map Prod.fst = m.map Prod.fst := by
  induction m with
  | nil => rfl
  | cons hd tl ih =>
    obtain ⟨a, b⟩ := hd
    by_cases ha : a = k
    · simp [assign, ha]
    · simp [assign, ha, ih]

theorem keyConsistent_append (m : PrefixMap) (v : PrefixEntry) (h : KeyConsistent m) :
    KeyConsistent (m ++ [(v.prefix_, v)]) := by
  intro kv hkv
  rcases List.mem_append.1 hkv with h1 | h1
  · exact h kv h1
  · rw [List.mem_singleton.1 h1]

theorem keyConsistent_assign (m : PrefixMap) (v : PrefixEntry) (h : KeyConsistent m) :
    KeyConsistent (assign m v.prefix_ v) := by
  intro kv hkv
  rcases mem_assign m v.prefix_ v kv hkv with h1 | h1
  · exact h kv h1
  · rw [h1]

theorem keyConsistent_filter (q : IpPrefix × PrefixEntry → Bool) (m : PrefixMap)
    (h : KeyConsistent m) : KeyConsistent (m.filter q) :=
  fun kv hkv => h kv (List.mem_filter.1 hkv).1

theorem uniqueKeys_append (m : PrefixMap) (k : IpPrefix) (v : PrefixEntry)
    (h : UniqueKeys m) (hf : find m k = none) : UniqueKeys (m ++ [(k, v)]) := by
  unfold UniqueKeys at h ⊢
  rw [List.map_append, List.nodup_append]
  refine ⟨h, List.nodup_singleton _, ?_⟩
  intro a ha hb
  have hak : a = k := by simpa using hb
  subst hak
  obtain ⟨kv, hkv, hfst⟩ := List.mem_map.1 ha
  exact (find_eq_none_iff m a).1 hf kv hkv hfst

theorem uniqueKeys_assign (m : PrefixMap) (k : IpPrefix) (v : PrefixEntry)
    (h : UniqueKeys m) : UniqueKeys (assign m k v) := by
  unfold UniqueKeys
  rw [keys_assign]
  exact h

theorem uniqueKeys_filter (q : IpPrefix × PrefixEntry → Bool) (m : PrefixMap)
    (h : UniqueKeys m) : UniqueKeys (m.filter q) :=
  List.Nodup.sublist ((List.filter_sublist m).map Prod.fst) h

theorem syncEraseLoop_snd (t : PrefixType) (np : List IpPrefix) (m : PrefixMap) (u : Bool) :
    (syncEraseLoop t np m u).2 =
      m.filter (fun kv => !decide (kv.2.type = t ∧ np.count kv.1 = 0)) := by
  induction m generalizing u with
  | nil => rfl
  | cons hd tl ih =>
    obtain ⟨a, b⟩ := hd
    by_cases h : b.type = t ∧ List.count a np = 0
    · simp only [syncEraseLoop, h, and_self, if_true, ih, decide_True, Bool.not_true,
        Bool.false_eq_true, not_false_eq_true, List.filter_cons_of_neg]
    · simp only [syncEraseLoop, h, if_false, ih, decide_False, Bool.not_false,
        List.filter_cons_of_pos]

theorem addOrUpdatePrefixesLoop_keyConsistent (es : List PrefixEntry) (m : PrefixMap)
    (u : Bool) (h : KeyConsistent m) : KeyConsistent (addOrUpdatePrefixesLoop es m u).2 := by
  induction es generalizing m u with
  | nil => exact h
  | cons p rest ih =>
    unfold addOrUpdatePrefixesLoop
    cases hf : find m p.prefix_ with
    | none =>
      simp only []
      apply ih
      unfold emplace
      rw [hf]
      exact keyConsistent_append m p h
    | some stored =>
      simp only []
      split
      · exact ih _ _ (keyConsistent_assign m p h)
      · exact ih _ _ h

theorem addOrUpdatePrefixesLoop_uniqueKeys (es : List PrefixEntry) (m : PrefixMap)
    (u : Bool) (h : UniqueKeys m) : UniqueKeys (addOrUpdatePrefixesLoop es m u).2 := by
  induction es generalizing m u with
  | nil => exact h
  | cons p rest ih =>
    unfold addOrUpdatePrefixesLoop
    cases hf : find m p.prefix_ with
    | none =>
      simp only []
      apply ih
      unfold emplace
      rw [hf]
      exact uniqueKeys_append m _ p h hf
    | some stored =>
      simp only []
      split
      · exact ih _ _ (uniqueKeys_assign m _ p h)
      · exact ih _ _ h

theorem loadEntries_keyConsistent (es : List PrefixEntry) (m : PrefixMap)
    (h : KeyConsistent m) : KeyConsistent (loadEntries es m) := by
  induction es generalizing m with
  | nil => exact h
  | cons p rest ih =>
    unfold loadEntries subscriptAssign
    cases hf : find m p.prefix_ with
    | none => exact ih _ (keyConsistent_append m p h)
    | some stored => exact ih _ (keyConsistent_assign m p h)

theorem loadEntries_uniqueKeys (es : List PrefixEntry) (m : PrefixMap)
    (h : UniqueKeys m) : UniqueKeys (loadEntries es m) := by
  induction es generalizing m with
  | nil => exact h
  | cons p rest ih =>
    unfold loadEntries subscriptAssign
    cases hf : find m p.prefix_ with
    | none => exact ih _ (uniqueKeys_append m _ p h hf)
    | some stored => exact ih _ (uniqueKeys_assign m _ p h)

theorem removePrefixes_snd_filter (m : PrefixMap) (es : List PrefixEntry) :
    ∃ q : IpPrefix × PrefixEntry → Bool, (removePrefixes m es).2 = m.filter q := by
  unfold removePrefixes
  split
  · exact ⟨_, removePrefixesErase_eq_filter es m⟩
  · exact ⟨fun _ => true, by simp⟩

theorem entries_prefix_nodup (m : PrefixMap) (hu : UniqueKeys m) (hc : KeyConsistent m)
    (q : IpPrefix × PrefixEntry → Bool) :
    (((m.filter q).map Prod.snd).map (fun e => e.prefix_)).Nodup := by
  have h : ((m.filter q).map Prod.snd).map (fun e => e.prefix_) =
      (m.filter q).map Prod.fst := by
    rw [List.map_map]
    apply List.map_congr_left
    intro kv hkv
    exact hc kv (List.mem_filter.1 hkv).1
  rw [h]
  exact uniqueKeys_filter q m hu

/-- C13: storing every entry under its own prefix is an invariant of the map:
it holds of the map the constructor loads from disk, and it is kept by loading
entries, `addOrUpdatePrefixes`, `removePrefixes`, `removePrefixesByType` and
`syncPrefixesByType`; the same operations keep the keys of the container
distinct.  Consequently the list answered by `GET_ALL_PREFIXES`, the list
published by `updateKvStore` and the list stored by `persistPrefixDb` never
hold two entries with the same prefix. -/
theorem key_consistency_invariant :
    (∀ m es, KeyConsistent m → KeyConsistent (loadEntries es m)) ∧
    (∀ m es, KeyConsistent m → KeyConsistent (addOrUpdatePrefixes m es).2) ∧
    (∀ m es, KeyConsistent m → KeyConsistent (removePrefixes m es).2) ∧
    (∀ m t, KeyConsistent m → KeyConsistent (removePrefixesByType m t).2) ∧
    (∀ m t es, KeyConsistent m → KeyConsistent (syncPrefixesByType m t es).2) ∧
    (∀ m es, UniqueKeys m → UniqueKeys (loadEntries es m)) ∧
    (∀ m es, UniqueKeys m → UniqueKeys (addOrUpdatePrefixes m es).2) ∧
    (∀ m es, UniqueKeys m → UniqueKeys (removePrefixes m es).2) ∧
    (∀ m t, UniqueKeys m → UniqueKeys (removePrefixesByType m t).2) ∧
    (∀ m t es, UniqueKeys m → UniqueKeys (syncPrefixesByType m t es).2) ∧
    (∀ nodeId marker perf holdTime ttl startTime maybeDb,
      UniqueKeys (construct nodeId marker perf holdTime ttl startTime maybeDb).1.prefixMap ∧
      KeyConsistent (construct nodeId marker perf holdTime ttl startTime maybeDb).1.prefixMap) ∧
    (∀ s env, UniqueKeys s.prefixMap → KeyConsistent s.prefixMap →
      (∀ ps t resp,
        (processRequestMsg s env (some ⟨.GET_ALL_PREFIXES, ps, t⟩)).2 = some resp →
          (resp.prefixes.map (fun e => e.prefix_)).Nodup) ∧
      ((updateKvStore s env).kvPublished = s.kvPublished ∨
        ∃ w, (updateKvStore s env).kvPublished = s.kvPublished ++ [w] ∧
          (w.value.prefixEntries.map (fun e => e.prefix_)).Nodup) ∧
      ((persistPrefixDb s env).diskWritten = s.diskWritten ∨
        ∃ w, (persistPrefixDb s env).diskWritten = s.diskWritten ++ [w] ∧
          (w.value.prefixEntries.map (fun e => e.prefix_)).Nodup)) := by
  have hall : ∀ m : PrefixMap, UniqueKeys m → KeyConsistent m →
      ((m.map Prod.snd).map (fun e => e.prefix_)).Nodup := by
    intro m hu hc
    have h := entries_prefix_nodup m hu hc (fun _ => true)
    simpa using h
  refine ⟨fun m es h => loadEntries_keyConsistent es m h,
    fun m es h => addOrUpdatePrefixesLoop_keyConsistent es m false h, ?_, ?_, ?_,
    fun m es h => loadEntries_uniqueKeys es m h,
    fun m es h => addOrUpdatePrefixesLoop_uniqueKeys es m false h, ?_, ?_, ?_, ?_, ?_⟩
  · intro m es h
    obtain ⟨q, hq⟩ := removePrefixes_snd_filter m es
    rw [hq]
    exact keyConsistent_filter q m h
  · intro m t h
    unfold removePrefixesByType
    rw [removePrefixesByTypeLoop_snd]
    exact keyConsistent_filter _ m h
  · intro m t es h
    unfold syncPrefixesByType addOrUpdatePrefixes
    apply addOrUpdatePrefixesLoop_keyConsistent
    rw [syncEraseLoop_snd]
    exact keyConsistent_filter _ m h
  · intro m es h
    obtain ⟨q, hq⟩ := removePrefixes_snd_filter m es
    rw [hq]
    exact uniqueKeys_filter q m h
  · intro m t h
    unfold removePrefixesByType
    rw [removePrefixesByTypeLoop_snd]
    exact uniqueKeys_filter _ m h
  · intro m t es h
    unfold syncPrefixesByType addOrUpdatePrefixes
    apply addOrUpdatePrefixesLoop_uniqueKeys
    rw [syncEraseLoop_snd]
    exact uniqueKeys_filter _ m h
  · intro nodeId marker perf holdTime ttl startTime maybeDb
    have hu0 : UniqueKeys ([] : PrefixMap) := List.nodup_nil
    have hc0 : KeyConsistent ([] : PrefixMap) := fun kv hkv => by cases hkv
    cases maybeDb with
    | none => exact ⟨hu0, hc0⟩
    | some db =>
      exact ⟨loadEntries_uniqueKeys db.prefixEntries [] hu0,
        loadEntries_keyConsistent db.prefixEntries [] hc0⟩
  · intro s env hu hc
    refine ⟨?_, ?_, ?_⟩
    · intro ps t resp hresp
      have h : resp.prefixes = s.prefixMap.map Prod.snd := by
        simp only [processRequestMsg, processCommand] at hresp
        have h1 := Option.some.inj hresp
        rw [← h1]
        simp [allEntriesLoop_eq]
      rw [h]
      exact hall s.prefixMap hu hc
    · by_cases hlt : env.kvNow < s.prefixHoldUntilTimePoint
      · exact Or.inl (by rw [updateKvStore_early s env hlt])
      · right
        refine ⟨_, updateKvStore_kvPublished s env (Nat.not_lt.1 hlt), ?_⟩
        exact hall s.prefixMap hu hc
    · by_cases hlt : env.persistNow < s.prefixHoldUntilTimePoint
      · exact Or.inl (by rw [persistPrefixDb_early s env hlt])
      · right
        refine ⟨⟨kConfigKey, persistentPrefixDb s env.unixTs⟩, ?_, ?_⟩
        · simp [persistPrefixDb, hlt]
        · simp only [persistentPrefixDb, persistentEntriesLoop_eq, List.nil_append]
          exact entries_prefix_nodup s.prefixMap hu hc _

/-- C13 at a disk image that lists the prefix `A` twice: the map the
constructor builds keeps one entry per prefix, stored under its prefix. -/
theorem key_consistency_invariant_witness :
    UniqueKeys (construct "node1" "prefix:" false 0 300000 100
      (some ⟨"node1", [entryOf pfxA .LOOPBACK none, entryOf pfxA .BGP none], none⟩)).1.prefixMap ∧
    KeyConsistent (construct "node1" "prefix:" false 0 300000 100
      (some ⟨"node1", [entryOf pfxA .LOOPBACK none, entryOf pfxA .BGP none], none⟩)).1.prefixMap :=
  key_consistency_invariant.2.2.2.2.2.2.2.2.2.2.1 "node1" "prefix:" false 0 300000 100
    (some ⟨"node1", [entryOf pfxA .LOOPBACK none, entryOf pfxA .BGP none], none⟩)

/-! ## The two read commands -/

theorem entriesByTypeLoop_eq (t : PrefixType) (m : PrefixMap) (acc : List PrefixEntry) :
    entriesByTypeLoop t m acc =
      acc ++ (m.filter (fun kv => decide (kv.2.type = t))).map Prod.snd := by
  induction m generalizing acc with
  | nil => simp [entriesByTypeLoop]
  | cons hd tl ih =>
    obtain ⟨a, b⟩ := hd
    by_cases h : b.type = t
    · simp [entriesByTypeLoop, h, ih]
    · simp [entriesByTypeLoop, h, ih]

/-- C14: `GET_ALL_PREFIXES` is answered with `success = true` and the values
of the map pairs, one per pair; `GET_PREFIXES_BY_TYPE(t)` with `success = true`
and the values of the pairs whose type is `t`, one per pair.  An entry is in
the first list iff the map stores it, in the second iff the map stores it and
its type is `t`; neither list repeats an entry when the map's keys are distinct
and are the entries' prefixes.  Both leave the whole state (map, KV log, disk
log) as it was. -/
theorem read_commands (s : State) (env : Env) (ps : List PrefixEntry) (t : PrefixType) :
    processRequestMsg s env (some ⟨.GET_ALL_PREFIXES, ps, t⟩) =
      (s, some ⟨true, "", s.prefixMap.map Prod.snd⟩) ∧
    processRequestMsg s env (some ⟨.GET_PREFIXES_BY_TYPE, ps, t⟩) =
      (s, some ⟨true, "",
        (s.prefixMap.filter (fun kv => decide (kv.2.type = t))).map Prod.snd⟩) ∧
    (∀ e, e ∈ s.prefixMap.map Prod.snd ↔ ∃ k, (k, e) ∈ s.prefixMap) ∧
    (∀ e, e ∈ (s.prefixMap.filter (fun kv => decide (kv.2.type = t))).map Prod.snd ↔
      (∃ k, (k, e) ∈ s.prefixMap) ∧ e.type = t) ∧
    (UniqueKeys s.prefixMap → KeyConsistent s.prefixMap →
      (s.prefixMap.map Prod.snd).Nodup ∧
      ((s.prefixMap.filter (fun kv => decide (kv.2.type = t))).map Prod.snd).Nodup) := by
  refine ⟨?_, ?_, ?_, ?_, ?_⟩
  · simp [processRequestMsg, processCommand, allEntriesLoop_eq]
  · simp [processRequestMsg, processCommand, entriesByTypeLoop_eq]
  · intro e
    simp
  · intro e
    simp only [List.mem_map, List.mem_filter, decide_eq_true_eq, Prod.exists, exists_eq_right]
    constructor
    · rintro ⟨k, hk, ht⟩
      exact ⟨⟨k, hk⟩, ht⟩
    · rintro ⟨⟨k, hk⟩, ht⟩
      exact ⟨k, hk, ht⟩
  · intro hu hc
    have h := values_nodup s.prefixMap hu hc
    exact ⟨h, h.sublist ((List.filter_sublist s.prefixMap).map Prod.snd)⟩

/-- C14 on the map of scenario S6, asking for the LOOPBACK entries. -/
theorem read_commands_witness :
    processRequestMsg
        { stateS5 with prefixMap :=
          [(pfxA, entryOf pfxA .LOOPBACK none), (pfxB, entryOf pfxB .LOOPBACK none),
            (pfxC, entryOf pfxC .BGP none)] }
        envLate (some ⟨.GET_PREFIXES_BY_TYPE, [], .LOOPBACK⟩) =
      ({ stateS5 with prefixMap :=
          [(pfxA, entryOf pfxA .LOOPBACK none), (pfxB, entryOf pfxB .LOOPBACK none),
            (pfxC, entryOf pfxC .BGP none)] },
        some ⟨true, "", [entryOf pfxA .LOOPBACK none, entryOf pfxB .LOOPBACK none]⟩) :=
  (read_commands
    { stateS5 with prefixMap :=
      [(pfxA, entryOf pfxA .LOOPBACK none), (pfxB, entryOf pfxB .LOOPBACK none),
        (pfxC, entryOf pfxC .BGP none)] }
    envLate [] .LOOPBACK).2.1

/-! ## Failure leaves the map alone; the flag of addOrUpdatePrefixes -/

theorem addOrUpdatePrefixesLoop_fst_iff (es : List PrefixEntry) (m : PrefixMap) (u : Bool) :
    (addOrUpdatePrefixesLoop es m u).1 = true ↔
      (u = true ∨ ∃ p ∈ es, find m p.prefix_ ≠ some p) := by
  induction es generalizing m u with
  | nil => simp [addOrUpdatePrefixesLoop]
  | cons p rest ih =>
    unfold addOrUpdatePrefixesLoop
    cases hf : find m p.prefix_ with
    | none =>
      simp only [ih, true_or, true_iff]
      exact Or.inr ⟨p, List.mem_cons_self _ _, by simp [hf]⟩
    | some stored =>
      by_cases hne : stored = p
      · subst hne
        simp only [ne_eq, not_true_eq_false, if_false, ih, List.mem_cons, exists_eq_or_imp, hf]
        simp
      · simp only [ne_eq, hne, not_false_eq_true, if_true, ih, true_or, true_iff]
        exact Or.inr ⟨p, List.mem_cons_self _ _, by simp [hf, hne]⟩

theorem addOrUpdatePrefixesLoop_unchanged (es : List PrefixEntry) (m : PrefixMap) (u : Bool)
    (h : (addOrUpdatePrefixesLoop es m u).1 = false) :
    (addOrUpdatePrefixesLoop es m u).2 = m := by
  induction es generalizing m u with
  | nil => rfl
  | cons p rest ih =>
    have hno : ¬ (u = true ∨ ∃ q ∈ p :: rest, find m q.prefix_ ≠ some q) := by
      intro hx
      rw [(addOrUpdatePrefixesLoop_fst_iff (p :: rest) m u).2 hx] at h
      cases h
    have hp : find m p.prefix_ = some p := by
      by_contra hc
      exact hno (Or.inr ⟨p, List.mem_cons_self _ _, hc⟩)
    unfold addOrUpdatePrefixesLoop at h ⊢
    rw [hp] at h ⊢
    simp only [ne_eq, not_true_eq_false, if_false] at h ⊢
    exact ih m u h

theorem removePrefixesByTypeLoop_unchanged (t : PrefixType) (m : PrefixMap) (c : Bool)
    (h : (removePrefixesByTypeLoop t m c).1 = false) :
    (removePrefixesByTypeLoop t m c).2 = m := by
  have hno : ¬ (c = true ∨ ∃ kv ∈ m, kv.2.type = t) := by
    intro hx
    rw [(removePrefixesByTypeLoop_fst t m c).2 hx] at h
    cases h
  rw [removePrefixesByTypeLoop_snd, List.filter_eq_self]
  intro kv hkv
  have : ¬ kv.2.type = t := fun e => hno (Or.inr ⟨kv, hkv, e⟩)
  simpa using this

theorem syncEraseLoop_fst (t : PrefixType) (np : List IpPrefix) (m : PrefixMap) (u : Bool) :
    (syncEraseLoop t np m u).1 = true ↔
      (u = true ∨ ∃ kv ∈ m, kv.2.type = t ∧ np.count kv.1 = 0) := by
  induction m generalizing u with
  | nil => simp [syncEraseLoop]
  | cons hd tl ih =>
    obtain ⟨a, b⟩ := hd
    by_cases h : b.type = t ∧ List.count a np = 0
    · simp only [syncEraseLoop, h, and_self, if_true, ih, true_or, true_iff]
      exact Or.inr ⟨(a, b), List.mem_cons_self _ _, h⟩
    · simp only [syncEraseLoop, h, if_false, ih, List.mem_cons, exists_eq_or_imp, false_or]

theorem syncEraseLoop_unchanged (t : PrefixType) (np : List IpPrefix) (m : PrefixMap)
    (u : Bool) (h : (syncEraseLoop t np m u).1 = false) :
    (syncEraseLoop t np m u).2 = m := by
  have hno : ¬ (u = true ∨ ∃ kv ∈ m, kv.2.type = t ∧ np.count kv.1 = 0) := by
    intro hx
    rw [(syncEraseLoop_fst t np m u).2 hx] at h
    cases h
  rw [syncEraseLoop_snd, List.filter_eq_self]
  intro kv hkv
  have : ¬ (kv.2.type = t ∧ np.count kv.1 = 0) := fun e => hno (Or.inr ⟨kv, hkv, e⟩)
  simp only [Bool.not_eq_true', decide_eq_false_iff_not]
  exact this

theorem syncPrefixesByType_unchanged (m : PrefixMap) (t : PrefixType) (es : List PrefixEntry)
    (h : (syncPrefixesByType m t es).1 = false) : (syncPrefixesByType m t es).2 = m := by
  unfold syncPrefixesByType addOrUpdatePrefixes at h ⊢
  simp only [Bool.or_eq_false_iff] at h
  have h1 := syncEraseLoop_unchanged t _ m false h.1
  have h2 := h.2
  rw [h1] at h2
  show (addOrUpdatePrefixesLoop es
    (syncEraseLoop t (collectNewPrefixes es []) m false).2 false).2 = m
  rw [h1]
  exact addOrUpdatePrefixesLoop_unchanged es m false h2

theorem removePrefixes_unchanged_of_false (m : PrefixMap) (es : List PrefixEntry)
    (h : (removePrefixes m es).1 = false) : (removePrefixes m es).2 = m := by
  unfold removePrefixes at h ⊢
  by_cases hv : removePrefixesVerify m es = true
  · simp [hv] at h
  · simp [hv]

theorem processCommand_prefixMap_of_failure (s : State) (env : Env)
    (req : PrefixManagerRequest) (h : (processCommand s env req).2.1.success = false) :
    (processCommand s env req).1.prefixMap = s.prefixMap := by
  obtain ⟨cmd, prefixes, type⟩ := req
  cases cmd with
  | ADD_PREFIXES =>
    simp only [processCommand] at h ⊢
    cases hr : (addOrUpdatePrefixes s.prefixMap prefixes).1 with
    | true => simp [hr] at h
    | false =>
      simp only [Bool.false_eq_true, if_false]
      exact addOrUpdatePrefixesLoop_unchanged prefixes s.prefixMap false hr
  | WITHDRAW_PREFIXES =>
    simp only [processCommand] at h ⊢
    cases hr : (removePrefixes s.prefixMap prefixes).1 with
    | true => simp [hr] at h
    | false =>
      simp only [Bool.false_eq_true, if_false]
      exact removePrefixes_unchanged_of_false s.prefixMap prefixes hr
  | WITHDRAW_PREFIXES_BY_TYPE =>
    simp only [processCommand] at h ⊢
    cases hr : (removePrefixesByType s.prefixMap type).1 with
    | true => simp [hr] at h
    | false =>
      simp only [Bool.false_eq_true, if_false]
      exact removePrefixesByTypeLoop_unchanged type s.prefixMap false hr
  | SYNC_PREFIXES_BY_TYPE =>
    simp only [processCommand] at h ⊢
    cases hr : (syncPrefixesByType s.prefixMap type prefixes).1 with
    | true => simp [hr] at h
    | false =>
      simp only [Bool.false_eq_true, if_false]
      exact syncPrefixesByType_unchanged s.prefixMap type prefixes hr
  | GET_ALL_PREFIXES => rfl
  | GET_PREFIXES_BY_TYPE => rfl
  | unknown v => rfl

/-- C16: whatever the command (the four mutating ones, the two reads, any
unknown value), a response with `success = false` comes with the prefix map
of before the call; a request that cannot be read gives no response and the
state of before the call. -/
theorem failure_leaves_map (s : State) (env : Env) (req : PrefixManagerRequest)
    (resp : PrefixManagerResponse)
    (hresp : (processRequestMsg s env (some req)).2 = some resp)
    (hfail : resp.success = false) :
    (processRequestMsg s env (some req)).1.prefixMap = s.prefixMap ∧
    processRequestMsg s env none = (s, none) := by
  refine ⟨?_, rfl⟩
  have h1 : (processCommand s env req).2.1 = resp := Option.some.inj hresp
  rw [processRequestMsg_prefixMap]
  exact processCommand_prefixMap_of_failure s env req (by rw [h1]; exact hfail)

/-- C16 at an unknown command value. -/
theorem failure_leaves_map_witness :
    (processRequestMsg stateS5 envLate
      (some (mkRequest (.unknown 42) [entryOf pfxB .BGP none] .BGP))).1.prefixMap =
        stateS5.prefixMap :=
  (failure_leaves_map stateS5 envLate (mkRequest (.unknown 42) [entryOf pfxB .BGP none] .BGP)
    ⟨false, "Unknown command", []⟩ rfl rfl).1

theorem lastInputFor_of_mem (es : List PrefixEntry) (p : PrefixEntry)
    (hd : (es.map (fun e => e.prefix_)).Nodup) (hp : p ∈ es) :
    lastInputFor es p.prefix_ = some p := by
  induction es with
  | nil => cases hp
  | cons q rest ih =>
    rw [List.map_cons, List.nodup_cons] at hd
    rw [lastInputFor_cons]
    rcases List.mem_cons.1 hp with h | h
    · subst h
      rw [(lastInputFor_eq_none_iff rest p.prefix_).2 hd.1]
      simp
    · rw [ih hd.2 h]

theorem find_after_addOrUpdate_of_mem (m : PrefixMap) (es : List PrefixEntry) (p : PrefixEntry)
    (hd : (es.map (fun e => e.prefix_)).Nodup) (hp : p ∈ es) :
    find (addOrUpdatePrefixes m es).2 p.prefix_ = some p := by
  unfold addOrUpdatePrefixes
  rw [find_addOrUpdatePrefixesLoop, lastInputFor_of_mem es p hd hp]

theorem addOrUpdatePrefixes_changed_iff (m : PrefixMap) (es : List PrefixEntry)
    (hd : (es.map (fun e => e.prefix_)).Nodup) :
    (addOrUpdatePrefixes m es).1 = true ↔ ¬ MapEq (addOrUpdatePrefixes m es).2 m := by
  constructor
  · intro h heq
    rcases (addOrUpdatePrefixesLoop_fst_iff es m false).1 h with h1 | ⟨p, hp, hne⟩
    · cases h1
    · have h2 := heq p.prefix_
      rw [find_after_addOrUpdate_of_mem m es p hd hp] at h2
      exact hne h2.symm
  · intro hne
    cases hr : (addOrUpdatePrefixes m es).1 with
    | true => rfl
    | false =>
      exfalso
      apply hne
      have h := addOrUpdatePrefixesLoop_unchanged es m false hr
      unfold addOrUpdatePrefixes
      rw [h]
      exact fun _ => rfl

/-- C17: for an input list whose prefixes are pairwise distinct,
`addOrUpdatePrefixes` returns true iff the map after the call differs from the
map before it (some lookup differs; equivalently the stored pairs differ), so
`ADD_PREFIXES` answers `success = false` with "No changes in prefixes to be
advertised" exactly when the map after the request equals the map before. -/
theorem addOrUpdatePrefixes_true_iff_changed (m : PrefixMap) (es : List PrefixEntry)
    (hd : (es.map (fun e => e.prefix_)).Nodup) :
    ((addOrUpdatePrefixes m es).1 = true ↔ ¬ MapEq (addOrUpdatePrefixes m es).2 m) ∧
    ((addOrUpdatePrefixes m es).1 = true ↔ (addOrUpdatePrefixes m es).2 ≠ m) ∧
    (∀ (s : State) (env : Env) (t : PrefixType), s.prefixMap = m →
      ((processRequestMsg s env (some ⟨.ADD_PREFIXES, es, t⟩)).2 =
          some ⟨false, "No changes in prefixes to be advertised", []⟩ ↔
        MapEq (processRequestMsg s env (some ⟨.ADD_PREFIXES, es, t⟩)).1.prefixMap m)) := by
  have hiff := addOrUpdatePrefixes_changed_iff m es hd
  refine ⟨hiff, ?_, ?_⟩
  · constructor
    · intro h heq
      apply hiff.1 h
      rw [heq]
      exact fun _ => rfl
    · intro hne
      cases hr : (addOrUpdatePrefixes m es).1 with
      | true => rfl
      | false => exact absurd (addOrUpdatePrefixesLoop_unchanged es m false hr) hne
  · intro s env t hs
    subst hs
    have hmap : (processRequestMsg s env (some ⟨.ADD_PREFIXES, es, t⟩)).1.prefixMap =
        (addOrUpdatePrefixes s.prefixMap es).2 := by
      rw [processRequestMsg_prefixMap]
      simp only [processCommand]
      split
      · rw [updateKvStore_prefixMap]
      · rfl
    rw [hmap]
    cases hr : (addOrUpdatePrefixes s.prefixMap es).1 with
    | true =>
      have hne := hiff.1 hr
      simp only [processRequestMsg, processCommand, hr, if_true]
      constructor
      · intro h
        simp at h
      · intro h
        exact absurd h hne
    | false =>
      have heq : MapEq (addOrUpdatePrefixes s.prefixMap es).2 s.prefixMap := by
        by_contra hc
        rw [hiff.2 hc] at hr
        cases hr
      simp only [processRequestMsg, processCommand, hr, Bool.false_eq_true, if_false]
      constructor
      · intro _
        exact heq
      · intro _
        simp [kErrorNoChanges]

/-- C17 on the map of scenario S5: adding the stored entry again changes
nothing and returns false. -/
theorem addOrUpdatePrefixes_true_iff_changed_witness :
    ¬ ((addOrUpdatePrefixes [(pfxA, entryOf pfxA .LOOPBACK (some false))]
        [entryOf pfxA .LOOPBACK (some false)]).2 ≠
      [(pfxA, entryOf pfxA .LOOPBACK (some false))]) := by
  intro h
  have h1 := (addOrUpdatePrefixes_true_iff_changed
    [(pfxA, entryOf pfxA .LOOPBACK (some false))] [entryOf pfxA .LOOPBACK (some false)]
    (by decide)).2.1.2 h
  revert h1
  decide

/-- C18: for an input list whose prefixes are pairwise distinct, calling
`addOrUpdatePrefixes(entries)` again right after the first call returns false
and leaves the map as the first call left it. -/
theorem addOrUpdatePrefixes_idempotent (m : PrefixMap) (es : List PrefixEntry)
    (hd : (es.map (fun e => e.prefix_)).Nodup) :
    addOrUpdatePrefixes (addOrUpdatePrefixes m es).2 es =
      (false, (addOrUpdatePrefixes m es).2) := by
  have hflag : (addOrUpdatePrefixes (addOrUpdatePrefixes m es).2 es).1 = false := by
    cases hr : (addOrUpdatePrefixes (addOrUpdatePrefixes m es).2 es).1 with
    | false => rfl
    | true =>
      exfalso
      rcases (addOrUpdatePrefixesLoop_fst_iff es _ false).1 hr with h1 | ⟨p, hp, hne⟩
      · cases h1
      · exact hne (find_after_addOrUpdate_of_mem m es p hd hp)
  have hmap := addOrUpdatePrefixesLoop_unchanged es (addOrUpdatePrefixes m es).2 false hflag
  exact Prod.ext hflag hmap

/-- C18 at a call that inserts `A` and replaces `B`. -/
theorem addOrUpdatePrefixes_idempotent_witness :
    addOrUpdatePrefixes
        (addOrUpdatePrefixes [(pfxB, entryOf pfxB .LOOPBACK none)]
          [entryOf pfxA .LOOPBACK none, entryOf pfxB .BGP none]).2
        [entryOf pfxA .LOOPBACK none, entryOf pfxB .BGP none] =
      (false, (addOrUpdatePrefixes [(pfxB, entryOf pfxB .LOOPBACK none)]
          [entryOf pfxA .LOOPBACK none, entryOf pfxB .BGP none]).2) :=
  addOrUpdatePrefixes_idempotent [(pfxB, entryOf pfxB .LOOPBACK none)]
    [entryOf pfxA .LOOPBACK none, entryOf pfxB .BGP none] (by decide)

theorem syncEraseLoop_nil_eq (t : PrefixType) (m : PrefixMap) (u : Bool) :
    syncEraseLoop t [] m u = removePrefixesByTypeLoop t m u := by
  induction m generalizing u with
  | nil => rfl
  | cons hd tl ih =>
    obtain ⟨a, b⟩ := hd
    by_cases h : b.type = t
    · simp [syncEraseLoop, removePrefixesByTypeLoop, h, ih]
    · simp [syncEraseLoop, removePrefixesByTypeLoop, h, ih]

/-- C19: `syncPrefixesByType(t, [])` gives the same map and the same returned
flag as `removePrefixesByType(t)`. -/
theorem syncPrefixesByType_nil (m : PrefixMap) (t : PrefixType) :
    syncPrefixesByType m t [] = removePrefixesByType m t := by
  unfold syncPrefixesByType removePrefixesByType addOrUpdatePrefixes
  simp [collectNewPrefixes, addOrUpdatePrefixesLoop, syncEraseLoop_nil_eq]

end PrefixManager

namespace Routing

/-- C15: with the clock an explicit input, `expired(now)` is true iff `now` is
strictly greater than `expTime`, so a path is not expired at the instant
`now = expTime`; a freshly constructed path has its creation time as `expTime`,
hence is not expired at that instant and is expired at every later instant for
as long as `expTime` keeps that value; copying a path keeps `expTime`. -/
theorem meshPath_expired :
    (∀ (p : MeshPath) (now : Nat), p.expired now = true ↔ p.expTime < now) ∧
    (∀ p : MeshPath, p.expired p.expTime = false) ∧
    (∀ dst created : Nat, (MeshPath.create dst created).expTime = created ∧
      (MeshPath.create dst created).expired created = false) ∧
    (∀ (dst created now : Nat) (p : MeshPath),
      p.expTime = (MeshPath.create dst created).expTime → created < now →
        p.expired now = true) ∧
    (∀ (p : MeshPath) (now : Nat), (MeshPath.copy p).expired now = p.expired now) := by
  refine ⟨?_, ?_, ?_, ?_, ?_⟩
  · intro p now
    simp [MeshPath.expired]
  · intro p
    simp [MeshPath.expired]
  · intro dst created
    simp [MeshPath.expired, MeshPath.create]
  · intro dst created now p hp hlt
    have h : p.expTime = created := hp
    simp [MeshPath.expired, h, hlt]
  · intro p now
    rfl

/-- C15 at a path created at time `100`: not expired at `100`, expired at
`101`. -/
theorem meshPath_expired_witness :
    (MeshPath.create 1 100).expired 100 = false ∧ (MeshPath.create 1 100).expired 101 = true :=
  ⟨(meshPath_expired.2.2.1 1 100).2,
    meshPath_expired.2.2.2.1 1 100 101 (MeshPath.create 1 100) rfl (by decide)⟩

end Routing
